import Mathlib

set_option autoImplicit false

namespace Scrappers

/-! # Shallow embedding of `api_fetchers.py`

Python JSON-like values are modelled by `JVal`.  Python dictionaries are
modelled as association lists whose keys are kept in strictly increasing
(string) order, so that structural equality of `JVal` objects coincides with
Python dictionary equality (which ignores insertion order).  No code path
relevant to the claims iterates over a dictionary, so the key order is not
observable.  Operations that can raise in Python are modelled as
`Option`-valued functions (`none` = an exception was raised). -/

/-- A Python/JSON value: `None`, `bool`, `int`, `str`, `list`, `dict`. -/
inductive JVal : Type where
  | null : JVal
  | bool : Bool → JVal
  | int : Int → JVal
  | str : String → JVal
  | arr : List JVal → JVal
  | obj : List (String × JVal) → JVal

/-- Dictionary contents: an association list of string keys and values. -/
abbrev Obj := List (String × JVal)

/-- `d.get(k)` as an `Option`: the value of the first binding of `k`. -/
def dlookup : Obj → String → Option JVal
  | [], _ => none
  | (k', v) :: t, k => if k = k' then some v else dlookup t k

/-- Replace the value of the first binding of `k` (key known to be present). -/
def replaceFirst : Obj → String → JVal → Obj
  | [], _, _ => []
  | (k', v') :: t, k, v =>
    if k = k' then (k, v) :: t else (k', v') :: replaceFirst t k v

/-- Strict lexicographic order on character lists (by code point). -/
def charListLt : List Char → List Char → Bool
  | [], [] => false
  | [], _ :: _ => true
  | _ :: _, [] => false
  | a :: as, b :: bs => decide (a.toNat < b.toNat) || (a == b && charListLt as bs)

/-- Strict lexicographic order on strings, used only to fix the key order of
the model's dictionaries. -/
def strLt (a b : String) : Bool := charListLt a.toList b.toList

/-- Insert a fresh binding, keeping keys in increasing order. -/
def sortedIns : Obj → String → JVal → Obj
  | [], k, v => [(k, v)]
  | (k', v') :: t, k, v =>
    if strLt k k' then (k, v) :: (k', v') :: t else (k', v') :: sortedIns t k v

/-- `d[k] = v`: overwrite the binding of `k` if present, else insert it. -/
def dinsert (o : Obj) (k : String) (v : JVal) : Obj :=
  match dlookup o k with
  | some _ => replaceFirst o k v
  | none => sortedIns o k v

/-- `d.setdefault(k, v)`: the updated dictionary and the resulting value. -/
def dsetdefault (o : Obj) (k : String) (v : JVal) : Obj × JVal :=
  match dlookup o k with
  | some w => (o, w)
  | none => (dinsert o k v, v)

/-- Python truthiness of a value. -/
def truthy : JVal → Bool
  | .null => false
  | .bool b => b
  | .int n => n != 0
  | .str s => s != ""
  | .arr xs => !xs.isEmpty
  | .obj o => !o.isEmpty

/-- `a or b` in Python: `a` if truthy, else `b`. -/
def pyOr (a b : JVal) : JVal := if truthy a then a else b

/-- `v.get(k)` on a value known to be a dictionary; raises (`none`)
otherwise.  An absent key yields Python `None` (`JVal.null`). -/
def pyGet : JVal → String → Option JVal
  | .obj o, k => some ((dlookup o k).getD .null)
  | _, _ => none

/-- `v.get(k, d)` with an explicit default. -/
def pyGetD : JVal → String → JVal → Option JVal
  | .obj o, k, d => some ((dlookup o k).getD d)
  | _, _, _ => none

/-- `k in v` for a value known to be a dictionary. -/
def jvalHasKey : JVal → String → Bool
  | .obj o, k => (dlookup o k).isSome
  | _, _ => false

/-- Does `hay` start with `needle`? -/
def listStarts : List Char → List Char → Bool
  | _, [] => true
  | [], _ :: _ => false
  | h :: t, n :: ns => h == n && listStarts t ns

/-- Does `hay` contain `needle` as a contiguous run? -/
def listHasRun : List Char → List Char → Bool
  | [], needle => needle.isEmpty
  | h :: t, needle => listStarts (h :: t) needle || listHasRun t needle

/-- Python `sub in hay` on strings (substring test). -/
def strContains (hay sub : String) : Bool := listHasRun hay.toList sub.toList

/-- ASCII lower-casing of one character (Python `str.lower` restricted to
ASCII, which covers every label the code matches on). -/
def charLower (c : Char) : Char :=
  if 'A' ≤ c && c ≤ 'Z' then Char.ofNat (c.toNat + 32) else c

/-- ASCII lower-casing of a string. -/
def strLower (s : String) : String := String.mk (s.toList.map charLower)

/-- `v.lower()`: defined on strings only, raises otherwise. -/
def pyLower : JVal → Option String
  | .str s => some (strLower s)
  | _ => none

/-- Value of a non-empty, all-digit character run. -/
def digitsVal : List Char → Option Nat
  | [] => none
  | cs =>
    if cs.all Char.isDigit then
      some (cs.foldl (fun n c => n * 10 + (c.toNat - 48)) 0)
    else none

/-- Python whitespace for stripping around `int(...)` string arguments. -/
def isPyWs (c : Char) : Bool := c == ' ' || c == '\t' || c == '\n' || c == '\r'

/-- Python `int(s)` on a string: strip whitespace, optional sign, digits. -/
def parseIntStr (s : String) : Option Int :=
  let cs := s.toList.dropWhile isPyWs
  let cs := (cs.reverse.dropWhile isPyWs).reverse
  match cs with
  | '+' :: rest => (digitsVal rest).map Int.ofNat
  | '-' :: rest => (digitsVal rest).map (fun n => -(Int.ofNat n))
  | rest => (digitsVal rest).map Int.ofNat

/-- `int(v)` wrapped in `try: ... except: c = 0`, as in the row loop. -/
def pyIntCoerce : JVal → Int
  | .int n => n
  | .bool b => if b then 1 else 0
  | .str s => (parseIntStr s).getD 0
  | _ => 0

/-- `for x in v`: the iterated elements.  Lists iterate their elements,
strings their characters, dictionaries their keys; other values raise. -/
def pyIter : JVal → Option (List JVal)
  | .arr xs => some xs
  | .str s => some (s.toList.map (fun c => .str (String.singleton c)))
  | .obj o => some (o.map (fun p => .str p.1))
  | _ => none

/-- Python `m < v` for an int literal `m`: defined on numbers, raises
(`none`) on other types, as in Python 3. -/
def pyGtInt : JVal → Int → Option Bool
  | .int n, m => some (m < n)
  | .bool b, m => some (m < (if b then 1 else 0))
  | _, _ => none

/-- Python `v == m` for an int literal `m` (never raises). -/
def pyEqInt : JVal → Int → Bool
  | .int n, m => n == m
  | .bool b, m => (if b then (1 : Int) else 0) == m
  | _, _ => false

/-- Python `v == t` for a string literal `t` (never raises). -/
def pyEqStr : JVal → String → Bool
  | .str s, t => s == t
  | _, _ => false

/-- `round(v, 2)`: defined on numbers (integers stay unchanged), raises
otherwise.  Floating point values are outside the model. -/
def pyRound2 : JVal → Option JVal
  | .int n => some (.int n)
  | .bool b => some (.int (if b then 1 else 0))
  | _ => none

/-! ## `json.loads`, as a fuel-based recursive-descent parser

Used for string-encoded submission calendars.  Integers, strings without
escape sequences, arrays, objects, `null`, `true`, `false`; floating point
numbers and string escapes are outside the model (they make the parse fail,
which the callers treat like any other decode failure). -/

/-- Skip JSON whitespace. -/
def jsonWs (cs : List Char) : List Char := cs.dropWhile isPyWs

/-- Parse the body of a JSON string after the opening quote (no escapes). -/
def jsonStrChars : List Char → Option (List Char × List Char)
  | [] => none
  | c :: rest =>
    if c == '"' then some ([], rest)
    else if c == '\\' then none
    else (jsonStrChars rest).map (fun p => (c :: p.1, p.2))

/-- Parse a non-empty digit run. -/
def jsonDigits (cs : List Char) : Option (Nat × List Char) :=
  let ds := cs.takeWhile Char.isDigit
  match digitsVal ds with
  | some n => some (n, cs.drop ds.length)
  | none => none

mutual

/-- Parse one JSON value. -/
def jsonVal : Nat → List Char → Option (JVal × List Char)
  | 0, _ => none
  | Nat.succ fuel, cs =>
    match jsonWs cs with
    | 'n' :: 'u' :: 'l' :: 'l' :: rest => some (.null, rest)
    | 't' :: 'r' :: 'u' :: 'e' :: rest => some (.bool true, rest)
    | 'f' :: 'a' :: 'l' :: 's' :: 'e' :: rest => some (.bool false, rest)
    | '"' :: rest => (jsonStrChars rest).map (fun p => (.str (String.mk p.1), p.2))
    | '[' :: rest =>
      (match jsonWs rest with
       | ']' :: r2 => some (.arr [], r2)
       | cs' => (jsonArrItems fuel cs').map (fun p => (.arr p.1, p.2)))
    | '\x7b' :: rest =>
      (match jsonWs rest with
       | '\x7d' :: r2 => some (.obj [], r2)
       | cs' => (jsonObjItems fuel cs').map (fun p => (.obj p.1, p.2)))
    | '-' :: rest =>
      (jsonDigits rest).map (fun p => (.int (-(Int.ofNat p.1)), p.2))
    | c :: rest =>
      if c.isDigit then (jsonDigits (c :: rest)).map (fun p => (.int (Int.ofNat p.1), p.2))
      else none
    | [] => none

/-- Parse one or more comma-separated array items, then the closing bracket. -/
def jsonArrItems : Nat → List Char → Option (List JVal × List Char)
  | 0, _ => none
  | Nat.succ fuel, cs => do
    let (v, r) ← jsonVal fuel cs
    match jsonWs r with
    | ']' :: r2 => some ([v], r2)
    | ',' :: r2 => do
      let (vs, r3) ← jsonArrItems fuel r2
      some (v :: vs, r3)
    | _ => none

/-- Parse one or more comma-separated object members, then the closing brace.
Members are accumulated with `dinsert`, matching the model's dictionaries. -/
def jsonObjItems : Nat → List Char → Option (Obj × List Char)
  | 0, _ => none
  | Nat.succ fuel, cs =>
    match jsonWs cs with
    | '"' :: rest => do
      let (kcs, r) ← jsonStrChars rest
      match jsonWs r with
      | ':' :: r2 => do
        let (v, r3) ← jsonVal fuel r2
        match jsonWs r3 with
        | '\x7d' :: r4 => some ([(String.mk kcs, v)], r4)
        | ',' :: r4 => do
          let (o, r5) ← jsonObjItems fuel r4
          -- a later duplicate key wins, as in Python's json.loads
          match dlookup o (String.mk kcs) with
          | some _ => some (o, r5)
          | none => some (dinsert o (String.mk kcs) v, r5)
        | _ => none
      | _ => none
    | _ => none

end

/-- `json.loads(s)` (model): parse one value, require only whitespace after. -/
def jsonParse (s : String) : Option JVal :=
  match jsonVal (s.length + 1) s.toList with
  | some (v, rest) => if (jsonWs rest).isEmpty then some v else none
  | none => none

/-! ## Canonical model and template (`leetcode_template`) -/

/-- The error message baked into the degraded template. -/
def templateMsg : String :=
  "Detailed problem statistics not available from public APIs. Profile data retrieved successfully."

/-- Message when only coarse profile data (calendar or ranking) was found. -/
def msgStatsUnavailable : String :=
  "Profile data retrieved, but detailed problem statistics (totalSolved, easySolved, etc.) are not available from public APIs. LeetCode\x27s GraphQL API requires authentication."

/-- Message when nothing usable was found. -/
def msgNotFound : String :=
  "Unable to retrieve LeetCode profile data. User may not exist or profile may be private."

/-- The `report` sub-dictionary of the canonical LeetCode envelope.  Fields
whose values the code passes through from upstream keep type `JVal`. -/
structure Report where
  error : Bool
  errorMessage : Option String
  username : String
  totalSolved : JVal
  easySolved : JVal
  mediumSolved : JVal
  hardSolved : JVal
  acceptanceRate : JVal
  ranking : JVal
  reputation : JVal
  contributionPoints : JVal
  streak : JVal
  totalActiveDays : JVal
  submissionCalendar : JVal

/-- The canonical response envelope. -/
structure Envelope where
  message : String
  report : Report

/-- `leetcode_template(username)`: the degraded/default envelope. -/
def leetcode_template (username : String) : Envelope :=
  { message := "LeetCode report fetched successfully"
    report := { error := true, errorMessage := some templateMsg, username := username
                totalSolved := .int 0, easySolved := .int 0, mediumSolved := .int 0
                hardSolved := .int 0, acceptanceRate := .int 0, ranking := .null
                reputation := .int 0, contributionPoints := .int 0, streak := .int 0
                totalActiveDays := .int 0, submissionCalendar := .obj [] } }

/-! ## Schema Normalizer (`_normalize_leetcode_json`, lines 217-266)

The imperative build of `out` is split into phases.  The Python code aliases
`out["matchedUser"]` and `mu`; the functional translation reads the current
value and writes the updated dictionary back, which yields the same final
dictionary. -/

/-- The matched-user selection (`mu`). -/
def muSelect (jd : Obj) : JVal :=
  let muData : JVal :=
    match dlookup jd "data" with
    | some (.obj dd) =>
      pyOr ((dlookup dd "matchedUser").getD .null) ((dlookup dd "user").getD .null)
    | _ => .null
  if truthy muData then muData
  else
    pyOr ((dlookup jd "matchedUser").getD .null)
      (pyOr ((dlookup jd "user").getD .null) ((dlookup jd "profile").getD .null))

/-- The two aliasing reassignments `out["matchedUser"][k] = mu[k]` for the
statistics keys (they rewrite the value the dictionary already has). -/
def muReassign (mo : Obj) : Obj :=
  let mo1 := match dlookup mo "submitStatsGlobal" with
    | some v => dinsert mo "submitStatsGlobal" v
    | none => mo
  match dlookup mo1 "submitStats" with
  | some v => dinsert mo1 "submitStats" v
  | none => mo1

/-- `out["matchedUser"] = mu` plus the two aliasing reassignments. -/
def normPhase1 (jd : Obj) : Obj :=
  match muSelect jd with
  | .obj mo =>
    if truthy (.obj mo) then dinsert [] "matchedUser" (.obj (muReassign mo))
    else []
  | _ => []

/-- `if k in j: out.setdefault("matchedUser", {})[k] = j.get(k)`; raises
(`none`) if the existing `matchedUser` value is not a dictionary. -/
def normPhaseTop (jd : Obj) (o : Obj) (k : String) : Option Obj :=
  match dlookup jd k with
  | some v =>
    let p := dsetdefault o "matchedUser" (.obj [])
    match p.2 with
    | .obj mo => some (dinsert p.1 "matchedUser" (.obj (dinsert mo k v)))
    | _ => none
  | none => some o

/-- The contest-ranking selection (`ucr`). -/
def ucrSelect (jd : Obj) : JVal :=
  let u : JVal :=
    match dlookup jd "data" with
    | some (.obj dd) => (dlookup dd "userContestRanking").getD .null
    | _ => .null
  if truthy u then u
  else
    pyOr ((dlookup jd "userContestRanking").getD .null)
      ((dlookup jd "userContestRankingHistory").getD .null)

/-- `if ucr: out["userContestRanking"] = ucr`. -/
def normPhase4 (jd : Obj) (o : Obj) : Obj :=
  let u := ucrSelect jd
  if truthy u then dinsert o "userContestRanking" u else o

/-- `if "submissionCalendar" in j:
out.setdefault("matchedUser", {}).setdefault("submissionCalendar", j.get(...))`. -/
def normPhase5 (jd : Obj) (o : Obj) : Option Obj :=
  match dlookup jd "submissionCalendar" with
  | some v =>
    let p := dsetdefault o "matchedUser" (.obj [])
    match p.2 with
    | .obj mo =>
      some (dinsert p.1 "matchedUser" (.obj (dsetdefault mo "submissionCalendar" v).1))
    | _ => none
  | none => some o

/-- One step of the loop copying loose top-level fields. -/
def copyLoose (jd : Obj) (o : Obj) (k : String) : Obj :=
  match dlookup jd k with
  | some v => dinsert o k v
  | none => o

/-- The loop `for k in ("acceptanceRate", "streak", "activeDays",
"submissionCalendar"): if k in j: out[k] = j[k]`. -/
def normPhase6 (jd : Obj) (o : Obj) : Obj :=
  copyLoose jd (copyLoose jd (copyLoose jd (copyLoose jd o "acceptanceRate") "streak")
    "activeDays") "submissionCalendar"

/-- `_normalize_leetcode_json(j)`: map any mirror JSON shape to the canonical
normalized payload.  `none` models an exception. -/
def _normalize_leetcode_json (j : JVal) : Option JVal :=
  match j with
  | .obj jd => do
    let o1 := normPhase1 jd
    let o2 ← normPhaseTop jd o1 "submitStatsGlobal"
    let o3 ← normPhaseTop jd o2 "submitStats"
    let o4 := normPhase4 jd o3
    let o5 ← normPhase5 jd o4
    some (.obj (normPhase6 jd o5))
  | _ => some (.obj [])

/-! ## Stat Extractor (`_extract_stats_from_normalized`, lines 269-365) -/

/-- The four solved-count accumulators of the classification loop. -/
structure Counts where
  total : Int
  easy : Int
  medium : Int
  hard : Int
deriving DecidableEq

/-- `int(row.get("count") or row.get("submissions") or 0)` with the
enclosing try/except (non-numeric values coerce to zero). -/
def rowCount (ro : Obj) : Int :=
  pyIntCoerce (pyOr ((dlookup ro "count").getD .null)
    (pyOr ((dlookup ro "submissions").getD .null) (.int 0)))

/-- The row-classification loop (lines 293-309): each recognised row assigns
(not adds) its parsed count to its class; non-dictionary rows are skipped; a
truthy non-string difficulty raises. -/
def processRows : List JVal → Counts → Option Counts
  | [], acc => some acc
  | row :: rest, acc =>
    match row with
    | .obj ro =>
      let rawDiff := pyOr ((dlookup ro "difficulty").getD .null) (.str "")
      match pyLower rawDiff with
      | none => none
      | some diff =>
        let c := rowCount ro
        if strContains diff "all" || diff == "" then processRows rest { acc with total := c }
        else if strContains diff "easy" then processRows rest { acc with easy := c }
        else if strContains diff "medium" then processRows rest { acc with medium := c }
        else if strContains diff "hard" then processRows rest { acc with hard := c }
        else processRows rest acc
    | _ => processRows rest acc

/-- Whether a counts record makes the report validated (`has_stats`). -/
def hasStatsB (c : Counts) : Bool :=
  decide (0 < c.total) || decide (0 < c.easy) ||
    decide (0 < c.medium) || decide (0 < c.hard)

/-- Decoding of `cal_data` into `submission_cal`: a string is parsed as
JSON (decode failures yield an empty calendar), a dictionary passes through,
anything else leaves the calendar empty. -/
def decodeCal (calData : JVal) : JVal :=
  if truthy calData then
    match calData with
    | .str s => (jsonParse s).getD (.obj [])
    | .obj o => .obj o
    | _ => .obj []
  else .obj []

/-- `streak`/`totalActiveDays` from the nested `userCalendar` sub-record
(zero when the record is falsy; a truthy non-dictionary raises). -/
def userCalPair (userCal : JVal) : Option (JVal × JVal) :=
  if truthy userCal then do
    let s ← pyGet userCal "streak"
    let t ← pyGet userCal "totalActiveDays"
    pure (pyOr s (.int 0), pyOr t (.int 0))
  else pure (JVal.int 0, JVal.int 0)

/-- `if not v: v = nj.get(k) or mu.get(k) or 0`. -/
def looseFallback (v nj mu : JVal) (k : String) : Option JVal :=
  if !truthy v then do
    let a ← pyGet nj k
    let b ← pyGet mu k
    pure (pyOr a (pyOr b (.int 0)))
  else pure v

/-- The error-message choice, with the short-circuit of
`submission_cal or prof.get("ranking")`. -/
def msgChoice (hasStats : Bool) (submissionCal prof : JVal) : Option (Option String) :=
  if !hasStats then
    if truthy submissionCal then pure (some msgStatsUnavailable)
    else do
      let r ← pyGet prof "ranking"
      pure (some (if truthy r then msgStatsUnavailable else msgNotFound))
  else pure none

/-- `prof.get(k, d) if prof else d`. -/
def profField (prof : JVal) (k : String) (d : JVal) : Option JVal :=
  if truthy prof then pyGetD prof k d else pure d

/-- The tail of `_extract_stats_from_normalized` after the classification
loop: calendar and streak resolution, the error flag and message, and the
final `tpl["report"].update({...})`. -/
def finishExtract (nj mu prof : JVal) (username : String) (cnts : Counts) :
    Option Envelope := do
  let tpl := leetcode_template username
  -- cal_data = mu.get("submissionCalendar") or nj.get("submissionCalendar")
  let calData := pyOr (← pyGet mu "submissionCalendar") (← pyGet nj "submissionCalendar")
  let submissionCal := decodeCal calData
  -- user_cal = mu.get("userCalendar") or {}
  let userCal := pyOr (← pyGet mu "userCalendar") (.obj [])
  let streakPair ← userCalPair userCal
  let streak ← looseFallback streakPair.1 nj mu "streak"
  let tad ← looseFallback streakPair.2 nj mu "activeDays"
  let hasStats := hasStatsB cnts
  let errorMsg ← msgChoice hasStats submissionCal prof
  -- prof.get("ranking") if prof else None, and the two defaulted fields
  let ranking ← profField prof "ranking" .null
  let reputation ← profField prof "reputation" (.int 0)
  let contribution ← profField prof "postViewCount" (.int 0)
  let acceptanceRate :=
    pyOr (← pyGet nj "acceptanceRate") (pyOr (← pyGet mu "acceptanceRate") (.int 0))
  return { tpl with report := { tpl.report with
      error := !hasStats
      errorMessage := errorMsg
      username := username
      totalSolved := .int cnts.total
      easySolved := .int cnts.easy
      mediumSolved := .int cnts.medium
      hardSolved := .int cnts.hard
      acceptanceRate := acceptanceRate
      ranking := ranking
      reputation := reputation
      contributionPoints := contribution
      streak := streak
      totalActiveDays := tad
      submissionCalendar := submissionCal } }

/-- `_extract_stats_from_normalized(nj, username)`: derive the canonical
report from a normalized payload.  `none` models an exception. -/
def _extract_stats_from_normalized (nj : JVal) (username : String) : Option Envelope := do
  let tpl := leetcode_template username
  -- mu = nj.get("matchedUser") if nj else None
  let mu ← if truthy nj then pyGet nj "matchedUser" else pure JVal.null
  if !truthy mu then
    return tpl
  else
    -- prof = mu.get("profile") or {}
    let prof := pyOr (← pyGet mu "profile") (.obj [])
    -- ssg = mu.get("submitStatsGlobal") or mu.get("submitStats") or {}
    let ssg0 := pyOr (← pyGet mu "submitStatsGlobal") (pyOr (← pyGet mu "submitStats") (.obj []))
    let ac0 := pyOr (← pyGet ssg0 "acSubmissionNum") (.arr [])
    -- if not ac and "submitStats" in mu: try the alternative structure
    let ac1 ← if !truthy ac0 && jvalHasKey mu "submitStats" then do
        let ssg1 := pyOr (← pyGet mu "submitStats") (.obj [])
        pure (pyOr (← pyGet ssg1 "acSubmissionNum") (.arr []))
      else pure ac0
    -- if not ac: also try submitStatsGlobal at top level of matchedUser
    let ac ← if !truthy ac1 then do
        let ssg2 := pyOr (← pyGet mu "submitStatsGlobal") (.obj [])
        pure (pyOr (← pyGet ssg2 "acSubmissionNum") (.arr []))
      else pure ac1
    let rows ← pyIter ac
    let cnts ← processRows rows ⟨0, 0, 0, 0⟩
    finishExtract nj mu prof username cnts

/-! ## TTL cache (`TTLCache`, lines 61-83)

Time is modelled as a rational number (`time.time()` values); the store is an
association list keyed by the namespaced cache key. -/

/-- `CACHE_TTL = 60` seconds. -/
def CACHE_TTL : ℚ := 60

namespace TTLCache

/-- The `_data` dictionary: key, value, absolute expiry timestamp. -/
abbrev Store (α : Type) := List (String × α × ℚ)

/-- `self._data.get(key)`. -/
def lookup {α : Type} : Store α → String → Option (α × ℚ)
  | [], _ => none
  | (k', v, e) :: t, k => if k = k' then some (v, e) else lookup t k

/-- `self._data[key] = (val, exp)`. -/
def setEntry {α : Type} : Store α → String → α → ℚ → Store α
  | [], k, v, e => [(k, v, e)]
  | (k', v', e') :: t, k, v, e =>
    if k = k' then (k, v, e) :: t else (k', v', e') :: setEntry t k v e

/-- `del self._data[key]`. -/
def eraseKey {α : Type} : Store α → String → Store α
  | [], _ => []
  | (k', v', e') :: t, k => if k = k' then t else (k', v', e') :: eraseKey t k

/-- `get(key)` at current time `now`: the result and the updated store. -/
def get {α : Type} (st : Store α) (k : String) (now : ℚ) : Option α × Store α :=
  match lookup st k with
  | none => (none, st)
  | some (v, e) => if e < now then (none, eraseKey st k) else (some v, st)

/-- `set(key, val, ttl)` at insertion time `now`: records expiry `now + ttl`,
overwriting any existing entry. -/
def set {α : Type} (st : Store α) (k : String) (v : α) (now ttl : ℚ) : Store α :=
  setEntry st k v (now + ttl)

/-- `clear()`. -/
def clear {α : Type} (_ : Store α) : Store α := []

end TTLCache

/-! ## Rate limiter (`check_rate_limit`, lines 93-106) -/

/-- The outcome of one admission check. -/
inductive RateResult : Type where
  | allowed : RateResult
  | rejected : Nat → String → RateResult
deriving DecidableEq

/-- `RATE_LIMIT = 30` requests. -/
def RATE_LIMIT : Nat := 30

/-- `RATE_PERIOD = 60` seconds. -/
def RATE_PERIOD : Nat := 60

/-- The 429 detail string, stating the configured limit and window. -/
def rateMsg (limit period : Nat) : String :=
  "Rate limit exceeded (" ++ toString limit ++ " req / " ++ toString period ++ "s)"

/-- `while dq and dq[0] <= now - RATE_PERIOD: dq.popleft()`. -/
def pruneBucket (period : Nat) (now : ℚ) : List ℚ → List ℚ
  | [] => []
  | t :: ts => if t ≤ now - (period : ℚ) then pruneBucket period now ts else t :: ts

/-- `check_rate_limit` acting on one client's bucket at time `now`, with the
configuration constants as parameters (30 and 60 in the source): prune the
front of the deque, then admit (recording `now`) or reject with a 429. -/
def check_rate_limit (limit period : Nat) (bucket : List ℚ) (now : ℚ) :
    RateResult × List ℚ :=
  let dq := pruneBucket period now bucket
  if limit ≤ dq.length then (.rejected 429 (rateMsg limit period), dq)
  else (.allowed, dq ++ [now])

/-! ## Route handlers (`get_cached_or_fetch`, `api_*`, lines 1392-1435)

The per-platform live fetchers are network-bound collaborators; they enter
the model as an abstract family of functions.  The FastAPI `Depends` rate
check sits outside the handler bodies (and is bypassed when `api_unified`
calls a handler directly), so it does not appear here. -/

/-- An `HTTPException(status, detail)`. -/
structure HTTPError where
  status : Nat
  detail : String
deriving DecidableEq

/-- The five per-platform live fetchers, abstracted. -/
structure Fetchers (α : Type) where
  leetcode : String → α
  codechef : String → α
  duolingo : String → α
  codeforces : String → α
  hackerrank : String → α

/-- `get_cached_or_fetch(key, fn, arg)` at time `now`: cache hit, or fetch
and store with the default TTL. -/
def get_cached_or_fetch {α : Type} (st : TTLCache.Store α) (now : ℚ) (key : String)
    (fn : String → α) (arg : String) : α × TTLCache.Store α :=
  match TTLCache.get st key now with
  | (some v, st') => (v, st')
  | (none, st') => (fn arg, TTLCache.set st' key (fn arg) now CACHE_TTL)

/-- `GET /v1/leetcode/{username}`. -/
def api_leetcode {α : Type} (f : Fetchers α) (st : TTLCache.Store α) (now : ℚ)
    (username : String) : α × TTLCache.Store α :=
  get_cached_or_fetch st now ("lc:" ++ username) f.leetcode username

/-- `GET /v1/codechef/{username}`. -/
def api_codechef {α : Type} (f : Fetchers α) (st : TTLCache.Store α) (now : ℚ)
    (username : String) : α × TTLCache.Store α :=
  get_cached_or_fetch st now ("cc:" ++ username) f.codechef username

/-- `GET /v1/duolingo/{username}`. -/
def api_duolingo {α : Type} (f : Fetchers α) (st : TTLCache.Store α) (now : ℚ)
    (username : String) : α × TTLCache.Store α :=
  get_cached_or_fetch st now ("duo:" ++ username) f.duolingo username

/-- `GET /v1/codeforces/{username}`. -/
def api_cf {α : Type} (f : Fetchers α) (st : TTLCache.Store α) (now : ℚ)
    (username : String) : α × TTLCache.Store α :=
  get_cached_or_fetch st now ("cf:" ++ username) f.codeforces username

/-- `GET /v1/hackerrank/{username}`. -/
def api_hr {α : Type} (f : Fetchers α) (st : TTLCache.Store α) (now : ℚ)
    (username : String) : α × TTLCache.Store α :=
  get_cached_or_fetch st now ("hr:" ++ username) f.hackerrank username

/-- `GET /v1/report/{platform}/{username}`: dispatch by platform alias;
unknown platform raises a 404. -/
def api_unified {α : Type} (f : Fetchers α) (st : TTLCache.Store α) (now : ℚ)
    (platform username : String) : Except HTTPError (α × TTLCache.Store α) :=
  let p := strLower platform
  if p = "leetcode" || p = "lc" then .ok (api_leetcode f st now username)
  else if p = "codechef" || p = "cc" then .ok (api_codechef f st now username)
  else if p = "duolingo" || p = "duo" then .ok (api_duolingo f st now username)
  else if p = "codeforces" || p = "cf" then .ok (api_cf f st now username)
  else if p = "hackerrank" || p = "hr" then .ok (api_hr f st now username)
  else .error ⟨404, "Unknown platform."⟩

/-! ## Strategy cascade (`fetch_leetcode_live`, lines 368-792)

Each network-bound step enters the model as an environment value: `Step.exn`
models an exception (or a non-success HTTP status / undecodable body, which
the code treats the same way), `Step.ok` carries what the step produced.
Normalization, extraction, validity checks and the control flow between the
strategies are computed by the model itself, exactly as in the source. -/

/-- The outcome of one external step. -/
inductive Step (α : Type) : Type where
  | exn : Step α
  | ok : α → Step α

/-- The free fields of the dictionary `_scrape_leetcode_html` returns: the
scrape always sets `username` to the request username, never changes
`acceptanceRate`, `contributionPoints`, `streak`, `totalActiveDays` or
`submissionCalendar` from their zero/empty defaults, and keeps integer
solved counts; only these six fields vary. -/
structure ScrapeStats where
  totalSolved : Int
  easySolved : Int
  mediumSolved : Int
  hardSolved : Int
  ranking : JVal
  reputation : JVal

/-- One run of the Playwright strategy after a successful launch and
navigation.  A sub-step with `Step.exn` aborts the whole inner block. -/
structure PwRun where
  graphqlData : JVal
  pageData : Step JVal
  gqlFetch : Step JVal
  htmlStats : Step ScrapeStats

/-- All strategy outcomes of one `fetch_leetcode_live` call. -/
structure FetchEnv where
  pwAvailable : Bool
  pw : Step PwRun
  gql1 : Step JVal
  gql2 : Step JVal
  statsApi : Step JVal
  htmlStats : Step ScrapeStats
  mirrors : List (Step JVal)
  finalGql : Step JVal

/-- `normalized.get("matchedUser")`; the normalizer always yields a dict. -/
def getMU : JVal → JVal
  | .obj o => (dlookup o "matchedUser").getD .null
  | _ => .null

/-- Is the value a dictionary (`isinstance(v, dict)`)? -/
def isObjB : JVal → Bool
  | .obj _ => true
  | _ => false

/-- `tpl["report"].update(stats)` for a scrape result, followed by
`tpl["report"]["error"] = False`.  The `errorMessage` key is not in the
stats dictionary, so the template default message survives. -/
def applyScrape (u : String) (st : ScrapeStats) : Envelope :=
  let tpl := leetcode_template u
  { tpl with report := { tpl.report with
      error := false
      username := u
      totalSolved := .int st.totalSolved
      easySolved := .int st.easySolved
      mediumSolved := .int st.mediumSolved
      hardSolved := .int st.hardSolved
      acceptanceRate := .int 0
      ranking := st.ranking
      reputation := st.reputation
      contributionPoints := .int 0
      streak := .int 0
      totalActiveDays := .int 0
      submissionCalendar := .obj [] } }

/-- Outcome of one Playwright sub-step: fall through, return, or exception
(which skips the remaining sub-steps). -/
inductive PwOut : Type where
  | next : PwOut
  | ret : Envelope → PwOut
  | abort : PwOut

/-- Playwright sub-step 1: intercepted GraphQL data. -/
def pwStep1 (run : PwRun) (u : String) : PwOut :=
  if truthy run.graphqlData then
    match _normalize_leetcode_json (.obj [("data", run.graphqlData)]) with
    | some norm =>
      if truthy (getMU norm) then
        match _extract_stats_from_normalized norm u with
        | some e => .ret e
        | none => .abort
      else .next
    | none => .abort
  else .next

/-- Playwright sub-step 2: data from the page's window objects. -/
def pwStep2 (run : PwRun) (u : String) : PwOut :=
  match run.pageData with
  | .exn => .abort
  | .ok pd =>
    if truthy pd then
      match _normalize_leetcode_json pd with
      | some norm =>
        if truthy (getMU norm) then
          match _extract_stats_from_normalized norm u with
          | some e => .ret e
          | none => .abort
        else .next
      | none => .abort
    else .next

/-- Playwright sub-step 3: in-page GraphQL fetch. -/
def pwStep3 (run : PwRun) (u : String) : PwOut :=
  match run.gqlFetch with
  | .exn => .abort
  | .ok v =>
    if truthy v && isObjB v then
      match _normalize_leetcode_json v with
      | some norm =>
        if truthy (getMU norm) then
          match _extract_stats_from_normalized norm u with
          | some e => .ret e
          | none => .abort
        else .next
      | none => .abort
    else .next

/-- Playwright sub-step 4: scrape of the rendered page HTML. -/
def pwStep4 (run : PwRun) (u : String) : PwOut :=
  match run.htmlStats with
  | .exn => .abort
  | .ok st => if 0 < st.totalSolved then .ret (applyScrape u st) else .next

/-- Strategy 1: the whole Playwright block. -/
def runPw (env : FetchEnv) (u : String) : Option Envelope :=
  if env.pwAvailable then
    match env.pw with
    | .exn => none
    | .ok run =>
      match pwStep1 run u with
      | .ret e => some e
      | .abort => none
      | .next =>
        match pwStep2 run u with
        | .ret e => some e
        | .abort => none
        | .next =>
          match pwStep3 run u with
          | .ret e => some e
          | .abort => none
          | .next =>
            match pwStep4 run u with
            | .ret e => some e
            | _ => none
  else none

/-- Strategy 2, one GraphQL query attempt: return the extraction only when
it is validated (`totalSolved > 0`); anything else falls through. -/
def tryGqlQuery (q : Step JVal) (u : String) : Option Envelope :=
  match q with
  | .exn => none
  | .ok data =>
    match pyGet data "errors" with
    | none => none
    | some errs =>
      if truthy errs then none
      else
        match _normalize_leetcode_json data with
        | none => none
        | some norm =>
          if truthy (getMU norm) then
            match _extract_stats_from_normalized norm u with
            | none => none
            | some res =>
              match pyGtInt res.report.totalSolved 0 with
              | some true => some res
              | _ => none
          else none

/-- Strategy 3: the alternative stats API (`leetcode-stats-api` shape). -/
def tryStatsApi (s : Step JVal) (u : String) : Option Envelope :=
  match s with
  | .ok (.obj jo) =>
    if pyEqStr ((dlookup jo "status").getD .null) "success" then
      match pyGtInt ((dlookup jo "totalSolved").getD (.int 0)) 0 with
      | some true =>
        let calRaw := (dlookup jo "submissionCalendar").getD (.obj [])
        let cal : JVal :=
          match calRaw with
          | .str s => (jsonParse s).getD (.obj [])
          | v => v
        match pyRound2 ((dlookup jo "acceptanceRate").getD (.int 0)) with
        | some ar =>
          let tpl := leetcode_template u
          some { tpl with report := { tpl.report with
              error := false
              username := u
              totalSolved := (dlookup jo "totalSolved").getD (.int 0)
              easySolved := (dlookup jo "easySolved").getD (.int 0)
              mediumSolved := (dlookup jo "mediumSolved").getD (.int 0)
              hardSolved := (dlookup jo "hardSolved").getD (.int 0)
              acceptanceRate := ar
              ranking := (dlookup jo "ranking").getD .null
              reputation := (dlookup jo "reputation").getD (.int 0)
              contributionPoints := (dlookup jo "contributionPoints").getD (.int 0)
              streak := .int 0
              totalActiveDays := .int 0
              submissionCalendar := cal } }
        | none => none
      | _ => none
    else none
  | _ => none

/-- Strategy 4: plain HTML scrape via requests + BeautifulSoup. -/
def tryHtmlScrape (s : Step ScrapeStats) (u : String) : Option Envelope :=
  match s with
  | .exn => none
  | .ok st => if 0 < st.totalSolved then some (applyScrape u st) else none

/-- The mirror branch test `"data" in j and isinstance(j["data"], dict) and
("matchedUser" in j["data"])`: `some (some dd)` selects the `j["data"]`
branch, `some none` the plain branch, `none` models a raise (membership or
indexing on an incompatible type). -/
def mirrorCond : JVal → Option (Option Obj)
  | .obj o =>
    match dlookup o "data" with
    | none => some none
    | some (.obj dd) => some (if (dlookup dd "matchedUser").isSome then some dd else none)
    | some _ => some none
  | .str s => if strContains s "data" then none else some none
  | .arr xs => if xs.any (fun x => pyEqStr x "data") then none else some none
  | _ => none

/-- Strategy 5, the mirror loop: `(early return, retained mirror_result)`.
A failed or unusable mirror continues; the first unvalidated extraction is
retained as `mirror_result` and never replaced. -/
def runMirrors (u : String) : List (Step JVal) → Option Envelope →
    Option Envelope × Option Envelope
  | [], acc => (none, acc)
  | m :: rest, acc =>
    match m with
    | .exn => runMirrors u rest acc
    | .ok j =>
      if !truthy j then runMirrors u rest acc
      else
        match mirrorCond j with
        | none => runMirrors u rest acc
        | some branch =>
          match (match branch with
                 | some dd => _normalize_leetcode_json (.obj dd)
                 | none => _normalize_leetcode_json j) with
          | none => runMirrors u rest acc
          | some norm =>
            if truthy (getMU norm) then
              match _extract_stats_from_normalized norm u with
              | none => runMirrors u rest acc
              | some res =>
                match pyGtInt res.report.totalSolved 0 with
                | some true => (some res, acc)
                | some false =>
                  runMirrors u rest (match acc with | some _ => acc | none => some res)
                | none => runMirrors u rest acc
            else runMirrors u rest acc

/-- The merge loop of the closing retry: copy `ranking`, `reputation` and
`contributionPoints` from the mirror candidate where the retry's own value
is falsy and the mirror's is truthy. -/
def mergeMirror (res mr : Envelope) : Envelope :=
  let r1 :=
    if truthy mr.report.ranking && !truthy res.report.ranking then
      { res with report := { res.report with ranking := mr.report.ranking } }
    else res
  let r2 :=
    if truthy mr.report.reputation && !truthy r1.report.reputation then
      { r1 with report := { r1.report with reputation := mr.report.reputation } }
    else r1
  if truthy mr.report.contributionPoints && !truthy r2.report.contributionPoints then
    { r2 with report := { r2.report with contributionPoints := mr.report.contributionPoints } }
  else r2

/-- The closing GraphQL retry (lines 716-784), entered when a mirror
candidate exists with `totalSolved == 0`.  `some` is a `return` from inside
the block: the validated retry result, or the unvalidated retry extraction
with the mirror's auxiliary fields merged in. -/
def finalRetry (s : Step JVal) (mr : Envelope) (u : String) : Option Envelope :=
  match s with
  | .exn => none
  | .ok data =>
    match pyGet data "data" with
    | none => none
    | some d =>
      if truthy d then
        match pyGet d "matchedUser" with
        | none => none
        | some m =>
          if truthy m then
            match _normalize_leetcode_json data with
            | none => none
            | some norm =>
              if truthy (getMU norm) then
                match _extract_stats_from_normalized norm u with
                | none => none
                | some res =>
                  match pyGtInt res.report.totalSolved 0 with
                  | none => none
                  | some true => some res
                  | some false => some (mergeMirror res mr)
              else none
          else none
      else none

/-- `fetch_leetcode_live(username)` as a function of the strategy outcomes:
run the cascade, fall back to the retained mirror candidate (possibly after
the closing retry), and finally to the degraded template. -/
def fetch_leetcode_live (env : FetchEnv) (u : String) : Envelope :=
  match runPw env u with
  | some e => e
  | none =>
  match tryGqlQuery env.gql1 u with
  | some e => e
  | none =>
  match tryGqlQuery env.gql2 u with
  | some e => e
  | none =>
  match tryStatsApi env.statsApi u with
  | some e => e
  | none =>
  match tryHtmlScrape env.htmlStats u with
  | some e => e
  | none =>
  match runMirrors u env.mirrors none with
  | (some e, _) => e
  | (none, some mr) =>
    if pyEqInt mr.report.totalSolved 0 then
      match finalRetry env.finalGql mr u with
      | some e => e
      | none => mr
    else mr
  | (none, none) => leetcode_template u

/-! # Verification -/

/-! ## Dictionary lemmas -/

theorem dlookup_replaceFirst_self (o : Obj) (k : String) (v : JVal)
    (h : (dlookup o k).isSome) : dlookup (replaceFirst o k v) k = some v := by
  induction o with
  | nil => simp [dlookup] at h
  | cons p t ih =>
    by_cases hk : k = p.1
    · simp [replaceFirst, hk, dlookup]
    · simp only [dlookup, if_neg hk] at h
      simp [replaceFirst, Ne.symm hk, hk, dlookup, ih h]

theorem dlookup_sortedIns_self (o : Obj) (k : String) (v : JVal)
    (h : dlookup o k = none) : dlookup (sortedIns o k v) k = some v := by
  induction o with
  | nil => simp [sortedIns, dlookup]
  | cons p t ih =>
    simp only [dlookup] at h
    by_cases hk : k = p.1
    · simp [hk] at h
    · simp only [if_neg hk] at h
      by_cases hlt : strLt k p.1
      · simp [sortedIns, hlt, dlookup]
      · simp [sortedIns, hlt, dlookup, hk, ih h]

theorem dlookup_dinsert_self (o : Obj) (k : String) (v : JVal) :
    dlookup (dinsert o k v) k = some v := by
  unfold dinsert
  cases h : dlookup o k with
  | none => exact dlookup_sortedIns_self o k v h
  | some w => exact dlookup_replaceFirst_self o k v (by simp [h])

theorem dlookup_replaceFirst_ne (o : Obj) (k : String) (v : JVal) (x : String)
    (h : x ≠ k) : dlookup (replaceFirst o k v) x = dlookup o x := by
  induction o with
  | nil => simp [replaceFirst]
  | cons p t ih =>
    by_cases hk : k = p.1
    · simp [replaceFirst, hk, dlookup, h, hk ▸ h]
    · simp [replaceFirst, hk, dlookup, ih]

theorem dlookup_sortedIns_ne (o : Obj) (k : String) (v : JVal) (x : String)
    (h : x ≠ k) : dlookup (sortedIns o k v) x = dlookup o x := by
  induction o with
  | nil => simp [sortedIns, dlookup, h]
  | cons p t ih =>
    by_cases hlt : strLt k p.1
    · simp [sortedIns, hlt, dlookup, h]
    · simp [sortedIns, hlt, dlookup, ih]

theorem dlookup_dinsert_ne (o : Obj) (k : String) (v : JVal) (x : String)
    (h : x ≠ k) : dlookup (dinsert o k v) x = dlookup o x := by
  unfold dinsert
  cases ho : dlookup o k with
  | none => exact dlookup_sortedIns_ne o k v x h
  | some w => exact dlookup_replaceFirst_ne o k v x h

theorem replaceFirst_lookup_self (o : Obj) (k : String) (v : JVal)
    (h : dlookup o k = some v) : replaceFirst o k v = o := by
  induction o with
  | nil => simp [dlookup] at h
  | cons p t ih =>
    obtain ⟨pk, pv⟩ := p
    by_cases hk : k = pk
    · simp only [dlookup, if_pos hk] at h
      cases h
      subst hk
      simp [replaceFirst]
    · simp only [dlookup, if_neg hk] at h
      simp [replaceFirst, hk, ih h]

/-- Rewriting a binding with the value it already has changes nothing. -/
theorem dinsert_lookup_self (o : Obj) (k : String) (v : JVal)
    (h : dlookup o k = some v) : dinsert o k v = o := by
  unfold dinsert
  rw [h]
  exact replaceFirst_lookup_self o k v h

/-! ## Claim C7: the TTL cache -/

theorem TTLCache.lookup_setEntry_self {α : Type} (st : TTLCache.Store α)
    (k : String) (v : α) (e : ℚ) :
    TTLCache.lookup (TTLCache.setEntry st k v e) k = some (v, e) := by
  induction st with
  | nil => simp [TTLCache.setEntry, TTLCache.lookup]
  | cons p t ih =>
    by_cases hk : k = p.1
    · simp [TTLCache.setEntry, hk, TTLCache.lookup]
    · simp [TTLCache.setEntry, hk, TTLCache.lookup, ih]

theorem TTLCache.lookup_of_key_absent {α : Type} (st : TTLCache.Store α) (k : String)
    (h : k ∉ st.map (fun p => p.1)) : TTLCache.lookup st k = none := by
  induction st with
  | nil => simp [TTLCache.lookup]
  | cons q r ih =>
    simp only [List.map_cons, List.mem_cons, not_or] at h
    simp [TTLCache.lookup, h.1, ih h.2]

theorem TTLCache.lookup_eraseKey_self {α : Type} (st : TTLCache.Store α) (k : String)
    (hnd : (st.map (fun p => p.1)).Nodup) :
    TTLCache.lookup (TTLCache.eraseKey st k) k = none := by
  induction st with
  | nil => simp [TTLCache.eraseKey, TTLCache.lookup]
  | cons p t ih =>
    simp only [List.map_cons, List.nodup_cons] at hnd
    by_cases hk : k = p.1
    · subst hk
      simp only [TTLCache.eraseKey, if_pos rfl]
      exact TTLCache.lookup_of_key_absent t _ hnd.1
    · simp [TTLCache.eraseKey, hk, TTLCache.lookup, ih hnd.2]

theorem TTLCache.setEntry_keys {α : Type} (st : TTLCache.Store α)
    (k : String) (v : α) (e : ℚ) :
    (TTLCache.setEntry st k v e).map (fun p => p.1) =
      if k ∈ st.map (fun p => p.1) then st.map (fun p => p.1)
      else st.map (fun p => p.1) ++ [k] := by
  induction st with
  | nil => simp [TTLCache.setEntry]
  | cons p t ih =>
    by_cases hk : k = p.1
    · simp [TTLCache.setEntry, hk]
    · simp only [TTLCache.setEntry, if_neg hk, List.map_cons, ih]
      by_cases hm : k ∈ t.map (fun p => p.1)
      · simp [hm, List.mem_cons, hk]
      · simp [hm, List.mem_cons, hk]

theorem TTLCache.setEntry_keys_nodup {α : Type} (st : TTLCache.Store α)
    (k : String) (v : α) (e : ℚ)
    (hnd : (st.map (fun p => p.1)).Nodup) :
    ((TTLCache.setEntry st k v e).map (fun p => p.1)).Nodup := by
  rw [TTLCache.setEntry_keys]
  by_cases hm : k ∈ st.map (fun p => p.1)
  · simpa [hm] using hnd
  · simp [hm, List.nodup_append, hnd]

/-- Claim C7: `set(k, v, ttl)` at time `now` records expiry `now + ttl` and
unconditionally overwrites any entry for `k`; a `get(k)` at a time `t` not
exceeding the expiry returns the stored value with the store unchanged; a
`get(k)` at a time `t` exceeding the expiry returns absent and removes the
entry (the store has no duplicate keys, as a Python dict cannot). -/
theorem ttlcache_contract {α : Type} (st : TTLCache.Store α) (k : String) (v : α)
    (now ttl t : ℚ) (hnd : (st.map (fun p => p.1)).Nodup) :
    TTLCache.lookup (TTLCache.set st k v now ttl) k = some (v, now + ttl) ∧
    (t ≤ now + ttl →
      TTLCache.get (TTLCache.set st k v now ttl) k t =
        (some v, TTLCache.set st k v now ttl)) ∧
    (now + ttl < t →
      TTLCache.get (TTLCache.set st k v now ttl) k t =
        (none, TTLCache.eraseKey (TTLCache.set st k v now ttl) k) ∧
      TTLCache.lookup (TTLCache.eraseKey (TTLCache.set st k v now ttl) k) k = none) := by
  have hl := TTLCache.lookup_setEntry_self st k v (now + ttl)
  refine ⟨hl, ?_, ?_⟩
  · intro ht
    simp [TTLCache.get, TTLCache.set, hl, not_lt.mpr ht]
  · intro ht
    constructor
    · simp [TTLCache.get, TTLCache.set, hl, ht]
    · exact TTLCache.lookup_eraseKey_self _ k
        (TTLCache.setEntry_keys_nodup st k v (now + ttl) hnd)

/-- Witness for `ttlcache_contract`: a 1-second entry read at times 1 and 2. -/
theorem ttlcache_contract_witness :
    TTLCache.get (TTLCache.set ([] : TTLCache.Store Int) "k" 5 0 1) "k" 1 =
      (some 5, TTLCache.set ([] : TTLCache.Store Int) "k" 5 0 1) ∧
    TTLCache.get (TTLCache.set ([] : TTLCache.Store Int) "k" 5 0 1) "k" 2 =
      (none, TTLCache.eraseKey (TTLCache.set ([] : TTLCache.Store Int) "k" 5 0 1) "k") := by
  have h := ttlcache_contract ([] : TTLCache.Store Int) "k" 5 0 1 2 (by simp)
  have h1 := ttlcache_contract ([] : TTLCache.Store Int) "k" 5 0 1 1 (by simp)
  exact ⟨h1.2.1 (by norm_num), (h.2.2 (by norm_num)).1⟩

/-! ## Claim C8: the rate limiter -/

theorem pruneBucket_eq_filter (period : Nat) (now : ℚ) (bucket : List ℚ)
    (hsort : bucket.Sorted (· ≤ ·)) :
    pruneBucket period now bucket =
      bucket.filter (fun x => !(x ≤ now - (period : ℚ))) := by
  induction bucket with
  | nil => simp [pruneBucket]
  | cons t ts ih =>
    rw [List.sorted_cons] at hsort
    by_cases hd : t ≤ now - (period : ℚ)
    · simp [pruneBucket, hd, ih hsort.2]
    · simp only [pruneBucket, if_neg hd, List.filter_cons,
        Bool.not_eq_true', decide_eq_false_iff_not]
      rw [if_pos (by simpa using hd)]
      congr 1
      refine (List.filter_eq_self.mpr ?_).symm
      intro x hx
      simp only [Bool.not_eq_true', decide_eq_false_iff_not]
      intro hxle
      exact hd (le_trans (hsort.1 x hx) hxle)

/-- Claim C8: on a bucket of non-decreasing timestamps, one admission call
discards exactly the timestamps at least one window old, then admits and
records `now` when the remaining count is below the limit, and otherwise
rejects with a 429 whose detail states the limit and the window. -/
theorem check_rate_limit_spec (limit period : Nat) (bucket : List ℚ) (now : ℚ)
    (hsort : bucket.Sorted (· ≤ ·)) :
    check_rate_limit limit period bucket now =
      (let kept := bucket.filter (fun x => !(x ≤ now - (period : ℚ)))
       if kept.length < limit then (RateResult.allowed, kept ++ [now])
       else (RateResult.rejected 429 (rateMsg limit period), kept)) := by
  simp only [check_rate_limit, pruneBucket_eq_filter period now bucket hsort]
  by_cases h : limit ≤ (bucket.filter (fun x => !(x ≤ now - (period : ℚ)))).length
  · simp [h, not_lt.mpr h]
  · simp [h, not_le.mp h]

/-- Witness for `check_rate_limit_spec`: limit 3, window 60 s — the fourth
immediate call is rejected, and a call after the window is admitted again. -/
theorem check_rate_limit_spec_witness :
    check_rate_limit 3 60 [] 0 = (RateResult.allowed, [0]) ∧
    check_rate_limit 3 60 [0] 0 = (RateResult.allowed, [0, 0]) ∧
    check_rate_limit 3 60 [0, 0] 0 = (RateResult.allowed, [0, 0, 0]) ∧
    check_rate_limit 3 60 [0, 0, 0] 0 =
      (RateResult.rejected 429 (rateMsg 3 60), [0, 0, 0]) ∧
    check_rate_limit 3 60 [0, 0, 0] 61 = (RateResult.allowed, [61]) := by
  refine ⟨?_, ?_, ?_, ?_, ?_⟩
  · rw [check_rate_limit_spec 3 60 [] 0 (by simp)]; norm_num
  · rw [check_rate_limit_spec 3 60 [0] 0 (by simp)]; norm_num
  · rw [check_rate_limit_spec 3 60 [0, 0] 0 (by simp)]; norm_num
  · rw [check_rate_limit_spec 3 60 [0, 0, 0] 0 (by simp)]; norm_num
  · rw [check_rate_limit_spec 3 60 [0, 0, 0] 61 (by simp)]; norm_num

/-! ## Claim C9: the unified endpoint -/

/-- Claim C9: `GET /v1/report/{platform}/{username}` with a recognised
platform alias returns exactly the result of the corresponding dedicated
handler for that username (for any fetcher family, cache state and time),
and any unrecognised alias raises a 404 with an explanatory message. -/
theorem api_unified_spec {α : Type} (f : Fetchers α) (st : TTLCache.Store α)
    (now : ℚ) (p u : String) :
    (strLower p = "leetcode" ∨ strLower p = "lc" →
      api_unified f st now p u = .ok (api_leetcode f st now u)) ∧
    (strLower p = "codechef" ∨ strLower p = "cc" →
      api_unified f st now p u = .ok (api_codechef f st now u)) ∧
    (strLower p = "duolingo" ∨ strLower p = "duo" →
      api_unified f st now p u = .ok (api_duolingo f st now u)) ∧
    (strLower p = "codeforces" ∨ strLower p = "cf" →
      api_unified f st now p u = .ok (api_cf f st now u)) ∧
    (strLower p = "hackerrank" ∨ strLower p = "hr" →
      api_unified f st now p u = .ok (api_hr f st now u)) ∧
    (strLower p ∉ (["leetcode", "lc", "codechef", "cc", "duolingo", "duo",
        "codeforces", "cf", "hackerrank", "hr"] : List String) →
      api_unified f st now p u = .error ⟨404, "Unknown platform."⟩) := by
  unfold api_unified
  refine ⟨?_, ?_, ?_, ?_, ?_, ?_⟩ <;> intro h
  · rcases h with h | h <;> simp [h]
  · rcases h with h | h <;> simp [h]
  · rcases h with h | h <;> simp [h]
  · rcases h with h | h <;> simp [h]
  · rcases h with h | h <;> simp [h]
  · simp only [List.mem_cons, List.not_mem_nil, or_false, not_or] at h
    obtain ⟨h1, h2, h3, h4, h5, h6, h7, h8, h9, h10⟩ := h
    simp [h1, h2, h3, h4, h5, h6, h7, h8, h9, h10]

/-- A concrete fetcher family for the dispatch witness. -/
def witnessFetchers : Fetchers Int :=
  ⟨fun _ => 1, fun _ => 2, fun _ => 3, fun _ => 4, fun _ => 5⟩

/-- Witness for `api_unified_spec`: alias `"CF"` dispatches to the
Codeforces handler; an unknown platform yields the 404. -/
theorem api_unified_spec_witness :
    api_unified witnessFetchers [] 0 "CF" "tourist" =
      .ok (api_cf witnessFetchers [] 0 "tourist") ∧
    api_unified witnessFetchers [] 0 "topcoder" "tourist" =
      .error ⟨404, "Unknown platform."⟩ := by
  constructor
  · exact (api_unified_spec witnessFetchers [] 0 "CF" "tourist").2.2.2.1
      (Or.inr (by decide))
  · exact (api_unified_spec witnessFetchers [] 0 "topcoder" "tourist").2.2.2.2.2
      (by decide)

/-! ## Claims C4 and C10: the row-classification loop -/

/-- A normalized payload whose matched user carries exactly a
submission-statistics array: the shape the row claims quantify over. -/
def mkStatsPayload (rows : List JVal) : JVal :=
  .obj [("matchedUser", .obj [("submitStatsGlobal",
    .obj [("acSubmissionNum", .arr rows)])])]

/-- The matched-user record inside `mkStatsPayload`. -/
def mkStatsMU (rows : List JVal) : JVal :=
  .obj [("submitStatsGlobal", .obj [("acSubmissionNum", .arr rows)])]

/-- The envelope the extractor produces for `mkStatsPayload`. -/
def statsPayloadEnv (u : String) (c : Counts) : Envelope :=
  let tpl := leetcode_template u
  { tpl with report := { tpl.report with
      error := !hasStatsB c
      errorMessage := if hasStatsB c then none else some msgNotFound
      username := u
      totalSolved := .int c.total
      easySolved := .int c.easy
      mediumSolved := .int c.medium
      hardSolved := .int c.hard
      acceptanceRate := .int 0
      ranking := .null
      reputation := .int 0
      contributionPoints := .int 0
      streak := .int 0
      totalActiveDays := .int 0
      submissionCalendar := .obj [] } }

theorem extract_statsPayload_cons (r : JVal) (rs : List JVal) (u : String) :
    _extract_stats_from_normalized (mkStatsPayload (r :: rs)) u =
      (processRows (r :: rs) ⟨0, 0, 0, 0⟩).bind
        (finishExtract (mkStatsPayload (r :: rs)) (mkStatsMU (r :: rs)) (.obj []) u) := rfl

theorem finishExtract_statsPayload (rows : List JVal) (u : String) (c : Counts) :
    finishExtract (mkStatsPayload rows) (mkStatsMU rows) (.obj []) u c =
      some (statsPayloadEnv u c) := by
  cases hb : hasStatsB c <;>
    simp [finishExtract, statsPayloadEnv, mkStatsPayload, mkStatsMU, pyGet, dlookup,
      pyOr, truthy, hb, leetcode_template, decodeCal, userCalPair, looseFallback,
      msgChoice, profField, pyGetD]

/-- On a pure statistics payload, the extractor is exactly the row loop
followed by the canonical fill-in. -/
theorem extract_statsPayload (rows : List JVal) (u : String) :
    _extract_stats_from_normalized (mkStatsPayload rows) u =
      (processRows rows ⟨0, 0, 0, 0⟩).map (statsPayloadEnv u) := by
  cases rows with
  | nil => rfl
  | cons r rs =>
    rw [extract_statsPayload_cons]
    cases hc : processRows (r :: rs) ⟨0, 0, 0, 0⟩ with
    | none => rfl
    | some c => simpa using finishExtract_statsPayload (r :: rs) u c

/-- The four difficulty classes. -/
inductive DiffClass : Type where
  | total : DiffClass
  | easy : DiffClass
  | medium : DiffClass
  | hard : DiffClass
deriving DecidableEq

/-- The class the elif chain assigns to a lowered difficulty label:
`"all"` or the empty (hence also a missing) label go to `total`. -/
def classOf (diff : String) : Option DiffClass :=
  if strContains diff "all" || diff == "" then some .total
  else if strContains diff "easy" then some .easy
  else if strContains diff "medium" then some .medium
  else if strContains diff "hard" then some .hard
  else none

/-- Specification view of one row: its class and parsed count; `none` for
rows the loop skips (non-dictionaries, unrecognised labels) and for rows
whose difficulty value would raise. -/
def rowClassOf (row : JVal) : Option (DiffClass × Int) :=
  match row with
  | .obj ro =>
    match pyLower (pyOr ((dlookup ro "difficulty").getD .null) (.str "")) with
    | some diff => (classOf diff).map (fun cl => (cl, rowCount ro))
    | none => none
  | _ => none

/-- The count of the last row classified to `cl`, if any. -/
def lastCount (rows : List JVal) (cl : DiffClass) : Option Int :=
  (((rows.filterMap rowClassOf).filter (fun p => decide (p.1 = cl))).getLast?).map
    (fun p => p.2)

theorem lastCount_cons (row : JVal) (rest : List JVal) (cl : DiffClass) (x : Int) :
    (lastCount (row :: rest) cl).getD x =
      (lastCount rest cl).getD
        (match rowClassOf row with
         | some p => if p.1 = cl then p.2 else x
         | none => x) := by
  unfold lastCount
  cases hr : rowClassOf row with
  | none => simp [hr]
  | some p =>
    simp only [List.filterMap_cons, hr]
    by_cases hp : p.1 = cl
    · simp only [List.filter_cons, decide_eq_true_eq, if_pos hp, hp]
      cases hfl : (rest.filterMap rowClassOf).filter (fun q => decide (q.1 = cl)) with
      | nil => simp
      | cons q l =>
        cases hgl : (q :: l).getLast? with
        | none => simp at hgl
        | some a => simp [List.getLast?_cons_cons, hgl]
    · simp [List.filter_cons, hp]

theorem processRows_lastCount (rows : List JVal) : ∀ (acc c : Counts),
    processRows rows acc = some c →
    c.total = (lastCount rows .total).getD acc.total ∧
    c.easy = (lastCount rows .easy).getD acc.easy ∧
    c.medium = (lastCount rows .medium).getD acc.medium ∧
    c.hard = (lastCount rows .hard).getD acc.hard := by
  induction rows with
  | nil =>
    intro acc c h
    simp only [processRows, Option.some.injEq] at h
    subst h
    simp [lastCount]
  | cons row rest ih =>
    intro acc c h
    cases row with
    | obj ro =>
      simp only [processRows] at h
      cases hl : pyLower (pyOr ((dlookup ro "difficulty").getD .null) (.str "")) with
      | none => simp only [hl] at h; cases h
      | some diff =>
        simp only [hl] at h
        have hrc : rowClassOf (.obj ro) = (classOf diff).map (fun cl => (cl, rowCount ro)) := by
          simp [rowClassOf, hl]
        by_cases h1 : strContains diff "all" || diff == ""
        · rw [if_pos h1] at h
          have hi := ih _ _ h
          have hcl : classOf diff = some .total := by simp [classOf, h1]
          refine ⟨?_, ?_, ?_, ?_⟩ <;>
            simp [lastCount_cons, hrc, hcl, hi.1, hi.2.1, hi.2.2.1, hi.2.2.2]
        · rw [if_neg h1] at h
          by_cases h2 : strContains diff "easy"
          · rw [if_pos h2] at h
            have hi := ih _ _ h
            have hcl : classOf diff = some .easy := by simp [classOf, h1, h2]
            refine ⟨?_, ?_, ?_, ?_⟩ <;>
              simp [lastCount_cons, hrc, hcl, hi.1, hi.2.1, hi.2.2.1, hi.2.2.2]
          · rw [if_neg h2] at h
            by_cases h3 : strContains diff "medium"
            · rw [if_pos h3] at h
              have hi := ih _ _ h
              have hcl : classOf diff = some .medium := by simp [classOf, h1, h2, h3]
              refine ⟨?_, ?_, ?_, ?_⟩ <;>
                simp [lastCount_cons, hrc, hcl, hi.1, hi.2.1, hi.2.2.1, hi.2.2.2]
            · rw [if_neg h3] at h
              by_cases h4 : strContains diff "hard"
              · rw [if_pos h4] at h
                have hi := ih _ _ h
                have hcl : classOf diff = some .hard := by simp [classOf, h1, h2, h3, h4]
                refine ⟨?_, ?_, ?_, ?_⟩ <;>
                  simp [lastCount_cons, hrc, hcl, hi.1, hi.2.1, hi.2.2.1, hi.2.2.2]
              · rw [if_neg h4] at h
                have hi := ih _ _ h
                have hcl : classOf diff = none := by simp [classOf, h1, h2, h3, h4]
                refine ⟨?_, ?_, ?_, ?_⟩ <;>
                  simp [lastCount_cons, hrc, hcl, hi.1, hi.2.1, hi.2.2.1, hi.2.2.2]
    | null =>
      simp only [processRows] at h
      have hi := ih _ _ h
      refine ⟨?_, ?_, ?_, ?_⟩ <;>
        simp [lastCount_cons, rowClassOf, hi.1, hi.2.1, hi.2.2.1, hi.2.2.2]
    | bool b =>
      simp only [processRows] at h
      have hi := ih _ _ h
      refine ⟨?_, ?_, ?_, ?_⟩ <;>
        simp [lastCount_cons, rowClassOf, hi.1, hi.2.1, hi.2.2.1, hi.2.2.2]
    | int n =>
      simp only [processRows] at h
      have hi := ih _ _ h
      refine ⟨?_, ?_, ?_, ?_⟩ <;>
        simp [lastCount_cons, rowClassOf, hi.1, hi.2.1, hi.2.2.1, hi.2.2.2]
    | str s =>
      simp only [processRows] at h
      have hi := ih _ _ h
      refine ⟨?_, ?_, ?_, ?_⟩ <;>
        simp [lastCount_cons, rowClassOf, hi.1, hi.2.1, hi.2.2.1, hi.2.2.2]
    | arr xs =>
      simp only [processRows] at h
      have hi := ih _ _ h
      refine ⟨?_, ?_, ?_, ?_⟩ <;>
        simp [lastCount_cons, rowClassOf, hi.1, hi.2.1, hi.2.2.1, hi.2.2.2]

/-- Claim C4 counterexample: a row with a missing difficulty label is
classified to the total count, although the claim states that rows with
missing labels affect none of the four counts: the single row
`{"count": 7}` yields `totalSolved = 7`, not `0`. -/
theorem extractor_rowclass_claim_refuted :
    (_extract_stats_from_normalized (mkStatsPayload [.obj [("count", .int 7)]]) "u").map
      (fun e => e.report.totalSolved) = some (.int 7) ∧
    (JVal.int 7 : JVal) ≠ .int 0 := by
  refine ⟨rfl, ?_⟩
  simp

/-- Claim C4 (amended): on every statistics payload whose extraction
succeeds, each of the four solved-count fields holds the count of the last
row classified to it (assignment, not summation), where classification is
the case-insensitive substring match with `"all"` or an empty or missing
label going to the total count and unrecognised non-empty labels affecting
no count; non-numeric count values coerce to zero without raising. -/
theorem extractor_rowclass_spec (rows : List JVal) (u : String) (rep : Envelope)
    (h : _extract_stats_from_normalized (mkStatsPayload rows) u = some rep) :
    (rep.report.totalSolved = .int ((lastCount rows .total).getD 0) ∧
     rep.report.easySolved = .int ((lastCount rows .easy).getD 0) ∧
     rep.report.mediumSolved = .int ((lastCount rows .medium).getD 0) ∧
     rep.report.hardSolved = .int ((lastCount rows .hard).getD 0)) ∧
    (∀ s : String, parseIntStr s = none → pyIntCoerce (.str s) = 0) ∧
    (∀ o : Obj, pyIntCoerce (.obj o) = 0) ∧ (∀ l : List JVal, pyIntCoerce (.arr l) = 0) := by
  rw [extract_statsPayload] at h
  cases hc : processRows rows ⟨0, 0, 0, 0⟩ with
  | none => rw [hc] at h; cases h
  | some c =>
    rw [hc] at h
    simp only [Option.map_some', Option.some.injEq] at h
    subst h
    have hp := processRows_lastCount rows ⟨0, 0, 0, 0⟩ c hc
    refine ⟨?_, ?_, ?_, ?_⟩
    · simp [statsPayloadEnv, hp.1, hp.2.1, hp.2.2.1, hp.2.2.2]
    · intro s hs; simp [pyIntCoerce, hs]
    · intro o; simp [pyIntCoerce]
    · intro l; simp [pyIntCoerce]

/-- Witness for `extractor_rowclass_spec`: the scenario row
`{"difficulty": "Medium", "count": "12"}` yields `mediumSolved = 12`. -/
theorem extractor_rowclass_spec_witness :
    (statsPayloadEnv "solver" ⟨0, 0, 12, 0⟩).report.mediumSolved =
      .int ((lastCount [.obj [("difficulty", .str "Medium"), ("count", .str "12")]]
        DiffClass.medium).getD 0) ∧
    ((lastCount [.obj [("difficulty", .str "Medium"), ("count", .str "12")]]
        DiffClass.medium).getD 0 : Int) = 12 :=
  ⟨(extractor_rowclass_spec [.obj [("difficulty", .str "Medium"), ("count", .str "12")]]
      "solver" (statsPayloadEnv "solver" ⟨0, 0, 12, 0⟩) rfl).1.2.2.1, rfl⟩

/-- Claim C10: when a row's `count` field is falsy, the `submissions` value
is used in its place: a row `{"difficulty": d, "count": 0, "submissions": n}`
parses to count `n` (identically to a plain count of `n`), and through the
extractor such a Medium row yields `mediumSolved = n`. -/
theorem submissions_fallback_spec (d : String) (n : Int) (u : String) :
    rowCount [("difficulty", .str d), ("count", .int 0), ("submissions", .int n)] = n ∧
    rowCount [("difficulty", .str d), ("count", .int n)] = n ∧
    _extract_stats_from_normalized (mkStatsPayload [.obj [("difficulty", .str "Medium"),
      ("count", .int 0), ("submissions", .int n)]]) u =
      some (statsPayloadEnv u ⟨0, 0, n, 0⟩) := by
  have key : ∀ dd : JVal,
      rowCount [("difficulty", dd), ("count", .int 0), ("submissions", .int n)] = n := by
    intro dd
    by_cases h0 : n = 0 <;>
      simp [rowCount, dlookup, pyOr, truthy, pyIntCoerce, bne, h0]
  have key2 : ∀ dd : JVal, rowCount [("difficulty", dd), ("count", .int n)] = n := by
    intro dd
    by_cases h0 : n = 0 <;>
      simp [rowCount, dlookup, pyOr, truthy, pyIntCoerce, bne, h0]
  refine ⟨key (.str d), key2 (.str d), ?_⟩
  have hpr : processRows [.obj [("difficulty", .str "Medium"), ("count", .int 0),
      ("submissions", .int n)]] ⟨0, 0, 0, 0⟩ =
      some ⟨0, 0, rowCount [("difficulty", .str "Medium"), ("count", .int 0),
        ("submissions", .int n)], 0⟩ := rfl
  rw [extract_statsPayload, hpr, key (.str "Medium")]
  rfl

/-! ## Claim C3: the error flag and the error messages -/

/-- Is the value a positive integer (`v > 0` on the report's count fields)? -/
def jGtZeroB : JVal → Bool
  | .int n => decide (0 < n)
  | _ => false

/-- Every successful extraction is either the early-returned template (no
matched user) or a record produced by `finishExtract`. -/
theorem extract_shape (nj : JVal) (u : String) (rep : Envelope)
    (h : _extract_stats_from_normalized nj u = some rep) :
    rep = leetcode_template u ∨
    ∃ (mu prof : JVal) (c : Counts), finishExtract nj mu prof u c = some rep := by
  unfold _extract_stats_from_normalized at h
  cases htr : truthy nj with
  | false =>
    rw [htr] at h
    exact Or.inl (Option.some.inj h).symm
  | true =>
    rw [htr] at h
    simp only [if_true] at h
    cases nj with
    | obj njo =>
      simp only [pyGet, Option.bind_eq_bind', Option.some_bind] at h
      cases htm : truthy ((dlookup njo "matchedUser").getD JVal.null) with
      | false =>
        rw [htm] at h
        exact Or.inl (Option.some.inj h).symm
      | true =>
        rw [htm] at h
        simp only [Bool.not_true, Bool.false_eq_true, if_false, Option.bind_eq_bind',
          Option.bind_eq_some, Option.pure_def, Option.some.injEq] at h
        obtain ⟨a, -, a1, -, a2, -, a3, -, h⟩ := h
        split at h
        · simp only [Option.some_bind, Option.bind_eq_some] at h
          obtain ⟨a4, -, a5, -, h⟩ := h
          split at h
          · simp only [Option.bind_eq_some] at h
            obtain ⟨a7, -, a8, -, rows, -, cnts, -, hfin⟩ := h
            exact Or.inr ⟨_, _, _, hfin⟩
          · simp only [Option.bind_eq_some] at h
            obtain ⟨rows, -, cnts, -, hfin⟩ := h
            exact Or.inr ⟨_, _, _, hfin⟩
        · simp only [Option.some_bind, Option.bind_eq_some] at h
          split at h
          · simp only [Option.bind_eq_some] at h
            obtain ⟨a5, -, a6, -, rows, -, cnts, -, hfin⟩ := h
            exact Or.inr ⟨_, _, _, hfin⟩
          · simp only [Option.bind_eq_some] at h
            obtain ⟨rows, -, cnts, -, hfin⟩ := h
            exact Or.inr ⟨_, _, _, hfin⟩
    | null => simp [pyGet] at h
    | bool b => simp [pyGet] at h
    | int n => simp [pyGet] at h
    | str s => simp [pyGet] at h
    | arr xs => simp [pyGet] at h

/-- The record `finishExtract` produces: the error flag is the negated
validity of the counts, the count fields carry the loop's results, and when
the flag is set the message is chosen by whether a profile signal (truthy
submission calendar or ranking) was found. -/
theorem finishExtract_shape (nj mu prof : JVal) (u : String) (c : Counts) (rep : Envelope)
    (h : finishExtract nj mu prof u c = some rep) :
    rep.report.error = !hasStatsB c ∧
    rep.report.totalSolved = .int c.total ∧ rep.report.easySolved = .int c.easy ∧
    rep.report.mediumSolved = .int c.medium ∧ rep.report.hardSolved = .int c.hard ∧
    rep.report.username = u ∧ rep.message = "LeetCode report fetched successfully" ∧
    rep.report.errorMessage = (if hasStatsB c then none
      else some (if truthy rep.report.submissionCalendar || truthy rep.report.ranking
                 then msgStatsUnavailable else msgNotFound)) := by
  unfold finishExtract at h
  simp only [Option.bind_eq_bind', Option.bind_eq_some, Option.some.injEq] at h
  obtain ⟨calA, -, calB, -, ucRaw, -, sp, -, stk, -, tad, -, emsg, hmsg, rk, hrk,
    rpu, -, cpt, -, arA, -, arB, -, hrec⟩ := h
  simp only [Option.pure_def, Option.some.injEq] at hrec
  subst hrec
  refine ⟨rfl, rfl, rfl, rfl, rfl, rfl, rfl, ?_⟩
  simp only []
  cases hb : hasStatsB c with
  | true =>
    rw [hb] at hmsg
    simp only [msgChoice, Bool.not_true, Bool.false_eq_true, if_false,
      Option.pure_def, Option.some.injEq] at hmsg
    subst hmsg
    simp [hb]
  | false =>
    rw [hb] at hmsg
    simp only [msgChoice, Bool.not_false, if_true] at hmsg
    by_cases hsc : truthy (decodeCal (pyOr calA calB))
    · rw [if_pos hsc] at hmsg
      simp only [Option.pure_def, Option.some.injEq] at hmsg
      subst hmsg
      simp [hb, hsc]
    · rw [if_neg hsc] at hmsg
      simp only [Option.bind_eq_bind', Option.bind_eq_some, Option.some.injEq] at hmsg
      simp only [Option.pure_def, Option.some.injEq] at hmsg
      obtain ⟨r, hr, hmsg⟩ := hmsg
      have hrv : rk = r := by
        unfold profField at hrk
        cases htp : truthy prof with
        | true =>
          rw [htp] at hrk
          simp only [if_true] at hrk
          cases prof with
          | obj po =>
            simp only [pyGetD, Option.some.injEq] at hrk
            simp only [pyGet, Option.some.injEq] at hr
            rw [← hrk, ← hr]
          | null => simp [pyGetD] at hrk
          | bool b => simp [pyGetD] at hrk
          | int n => simp [pyGetD] at hrk
          | str s => simp [pyGetD] at hrk
          | arr xs => simp [pyGetD] at hrk
        | false =>
          rw [htp] at hrk
          simp only [Bool.false_eq_true, if_false, Option.pure_def, Option.some.injEq] at hrk
          cases prof with
          | obj po =>
            have hpo : po = [] := by
              cases po with
              | nil => rfl
              | cons p t => simp [truthy] at htp
            subst hpo
            simp only [pyGet, dlookup, Option.some.injEq] at hr
            rw [← hrk, ← hr]
            simp
          | null => simp [pyGet] at hr
          | bool b => simp [pyGet] at hr
          | int n => simp [pyGet] at hr
          | str s => simp [pyGet] at hr
          | arr xs => simp [pyGet] at hr
      subst hrv
      subst hmsg
      simp [hb, hsc]

/-- Claim C3 counterexample: the empty normalized payload (what any non-map
upstream response normalizes to) has all four counts zero and no profile
signal, yet its message is the template default (which even reads "Profile
data retrieved successfully"), not the profile-not-found message the
claim's dichotomy requires. -/
theorem extractor_message_claim_refuted :
    _extract_stats_from_normalized (.obj []) "alice" = some (leetcode_template "alice") ∧
    (leetcode_template "alice").report.error = true ∧
    (leetcode_template "alice").report.totalSolved = .int 0 ∧
    (leetcode_template "alice").report.easySolved = .int 0 ∧
    (leetcode_template "alice").report.mediumSolved = .int 0 ∧
    (leetcode_template "alice").report.hardSolved = .int 0 ∧
    (leetcode_template "alice").report.submissionCalendar = .obj [] ∧
    (leetcode_template "alice").report.ranking = .null ∧
    (leetcode_template "alice").report.errorMessage = some templateMsg ∧
    templateMsg ≠ msgNotFound ∧ templateMsg ≠ msgStatsUnavailable := by
  refine ⟨rfl, rfl, rfl, rfl, rfl, rfl, rfl, rfl, rfl, ?_, ?_⟩ <;> decide

/-- Claim C3 (amended): for every normalized payload whose extraction
succeeds, the error flag is false exactly when at least one of the four
solved counts is positive; when the flag is true, either no matched user
was found and the whole template (with its default message) is returned, or
the message is the statistics-unavailable one exactly when some profile
signal (a truthy submission calendar or ranking) was found and the
profile-not-found one otherwise; a payload with no difficulty rows but a
profile ranking of 4821 yields error true, ranking 4821, and the
statistics-unavailable message. -/
theorem extractor_flag_message_spec (nj : JVal) (u : String) (rep : Envelope)
    (h : _extract_stats_from_normalized nj u = some rep) :
    (rep.report.error = false ↔
      (jGtZeroB rep.report.totalSolved || jGtZeroB rep.report.easySolved ||
       jGtZeroB rep.report.mediumSolved || jGtZeroB rep.report.hardSolved) = true) ∧
    (rep.report.error = true →
      rep = leetcode_template u ∨
      rep.report.errorMessage = some (if truthy rep.report.submissionCalendar ||
        truthy rep.report.ranking then msgStatsUnavailable else msgNotFound)) ∧
    (_extract_stats_from_normalized (.obj [("matchedUser",
        .obj [("profile", .obj [("ranking", .int 4821)])])]) u).map
      (fun e => (e.report.error, e.report.ranking, e.report.errorMessage)) =
      some (true, .int 4821, some msgStatsUnavailable) := by
  refine ⟨?_, ?_, rfl⟩ <;>
    rcases extract_shape nj u rep h with htpl | ⟨mu, prof, c, hfin⟩
  · subst htpl
    simp [leetcode_template, jGtZeroB]
  · have hs := finishExtract_shape nj mu prof u c rep hfin
    rw [hs.1, hs.2.1, hs.2.2.1, hs.2.2.2.1, hs.2.2.2.2.1]
    cases hb : hasStatsB c <;> simp_all [hasStatsB, jGtZeroB]
  · intro herr
    exact Or.inl htpl
  · intro herr
    have hs := finishExtract_shape nj mu prof u c rep hfin
    right
    rw [hs.2.2.2.2.2.2.2]
    have hb : hasStatsB c = false := by
      rw [hs.1] at herr
      simpa using herr
    simp [hb]

/-- The envelope of the ranking-4821 scenario. -/
def rankingScenarioEnv : Envelope :=
  { message := "LeetCode report fetched successfully"
    report := { error := true, errorMessage := some msgStatsUnavailable, username := "w"
                totalSolved := .int 0, easySolved := .int 0, mediumSolved := .int 0
                hardSolved := .int 0, acceptanceRate := .int 0, ranking := .int 4821
                reputation := .int 0, contributionPoints := .int 0, streak := .int 0
                totalActiveDays := .int 0, submissionCalendar := .obj [] } }

/-- Witness for `extractor_flag_message_spec`, at the ranking-4821 payload. -/
theorem extractor_flag_message_spec_witness :
    (rankingScenarioEnv.report.error = false ↔
      (jGtZeroB rankingScenarioEnv.report.totalSolved ||
       jGtZeroB rankingScenarioEnv.report.easySolved ||
       jGtZeroB rankingScenarioEnv.report.mediumSolved ||
       jGtZeroB rankingScenarioEnv.report.hardSolved) = true) :=
  (extractor_flag_message_spec
    (.obj [("matchedUser", .obj [("profile", .obj [("ranking", .int 4821)])])])
    "w" rankingScenarioEnv rfl).1

/-! ## Order infrastructure for the model's dictionaries -/

theorem char_toNat_inj {a b : Char} (h : a.toNat = b.toNat) : a = b := by
  simpa [Char.ext_iff, UInt32.ext_iff] using h

theorem charListLt_irrefl (l : List Char) : charListLt l l = false := by
  induction l with
  | nil => rfl
  | cons c t ih => simp [charListLt, ih]

theorem charListLt_trans : ∀ {x y z : List Char}, charListLt x y = true →
    charListLt y z = true → charListLt x z = true
  | [], [], _, hxy, _ => by simp [charListLt] at hxy
  | [], _ :: _, [], _, hyz => by simp [charListLt] at hyz
  | [], _ :: _, _ :: _, _, _ => by simp [charListLt]
  | _ :: _, [], _, hxy, _ => by simp [charListLt] at hxy
  | _ :: _, _ :: _, [], _, hyz => by simp [charListLt] at hyz
  | a :: as, b :: bs, c :: cs, hxy, hyz => by
    simp only [charListLt, Bool.or_eq_true, Bool.and_eq_true, decide_eq_true_eq,
      beq_iff_eq] at hxy hyz ⊢
    rcases hxy with h1 | ⟨h1, h1r⟩ <;> rcases hyz with h2 | ⟨h2, h2r⟩
    · exact Or.inl (Nat.lt_trans h1 h2)
    · exact Or.inl (h2 ▸ h1)
    · exact Or.inl (h1 ▸ h2)
    · exact Or.inr ⟨h1.trans h2, charListLt_trans h1r h2r⟩

theorem charListLt_total : ∀ (x y : List Char), x ≠ y →
    charListLt x y = true ∨ charListLt y x = true
  | [], [], h => absurd rfl h
  | [], _ :: _, _ => Or.inl (by simp [charListLt])
  | _ :: _, [], _ => Or.inr (by simp [charListLt])
  | a :: as, b :: bs, h => by
    by_cases hab : a = b
    · subst hab
      have has : as ≠ bs := fun hh => h (by rw [hh])
      rcases charListLt_total as bs has with hl | hl
      · exact Or.inl (by simp [charListLt, hl])
      · exact Or.inr (by simp [charListLt, hl])
    · have hnat : a.toNat ≠ b.toNat := fun hh => hab (char_toNat_inj hh)
      rcases Nat.lt_or_ge a.toNat b.toNat with hl | hl
      · exact Or.inl (by simp [charListLt, hl])
      · have : b.toNat < a.toNat := lt_of_le_of_ne hl (Ne.symm hnat)
        exact Or.inr (by simp [charListLt, this])

theorem strLt_irrefl (s : String) : strLt s s = false := charListLt_irrefl s.toList

theorem strLt_trans {a b c : String} (h1 : strLt a b = true) (h2 : strLt b c = true) :
    strLt a c = true := charListLt_trans h1 h2

theorem strLt_total (a b : String) (h : a ≠ b) : strLt a b = true ∨ strLt b a = true := by
  refine charListLt_total a.toList b.toList (fun hh => h ?_)
  cases a
  cases b
  exact congrArg String.mk (by simpa using hh)

theorem strLt_asymm {a b : String} (h : strLt a b = true) : strLt b a = false := by
  by_contra hc
  have hba : strLt b a = true := by
    cases hv : strLt b a
    · exact absurd hv hc
    · rfl
  have := strLt_trans h hba
  rw [strLt_irrefl] at this
  cases this

/-- Strict increasing key order of a model dictionary. -/
def keysSorted (o : Obj) : Prop := List.Pairwise (fun a b => strLt a.1 b.1 = true) o

theorem dlookup_mem : ∀ {o : Obj} {x : String} {w : JVal},
    dlookup o x = some w → (x, w) ∈ o := by
  intro o
  induction o with
  | nil => intro x w h; simp [dlookup] at h
  | cons p t ih =>
    intro x w h
    by_cases hx : x = p.1
    · simp only [dlookup, if_pos hx] at h
      cases h
      subst hx
      exact List.mem_cons_self _ _
    · simp only [dlookup, if_neg hx] at h
      exact List.mem_cons_of_mem _ (ih h)

theorem sorted_ext : ∀ (o₁ o₂ : Obj), keysSorted o₁ → keysSorted o₂ →
    (∀ k, dlookup o₁ k = dlookup o₂ k) → o₁ = o₂
  | [], [], _, _, _ => rfl
  | [], (k2, v2) :: t2, _, _, h => by
    have := h k2
    simp [dlookup] at this
  | (k1, v1) :: t1, [], _, _, h => by
    have := h k1
    simp [dlookup] at this
  | (k1, v1) :: t1, (k2, v2) :: t2, h1, h2, h => by
    by_cases hk : k1 = k2
    · subst hk
      have hv : v1 = v2 := by
        have := h k1
        simpa [dlookup] using this
      subst hv
      have ht : t1 = t2 := by
        refine sorted_ext t1 t2 (List.Pairwise.of_cons h1) (List.Pairwise.of_cons h2) ?_
        intro k
        by_cases hkk : k = k1
        · subst hkk
          have e1 : dlookup t1 k = none := by
            cases he : dlookup t1 k with
            | none => rfl
            | some w =>
              have hmem := dlookup_mem he
              have := (List.pairwise_cons.mp h1).1 _ hmem
              rw [strLt_irrefl] at this
              cases this
          have e2 : dlookup t2 k = none := by
            cases he : dlookup t2 k with
            | none => rfl
            | some w =>
              have hmem := dlookup_mem he
              have := (List.pairwise_cons.mp h2).1 _ hmem
              rw [strLt_irrefl] at this
              cases this
          rw [e1, e2]
        · have := h k
          simpa [dlookup, hkk] using this
      rw [ht]
    · exfalso
      have hlt12 : strLt k2 k1 = true := by
        have h1k := h k1
        simp only [dlookup, if_pos rfl, if_neg (Ne.symm hk)] at h1k
        rw [if_neg hk] at h1k
        have hmem := dlookup_mem h1k.symm
        exact (List.pairwise_cons.mp h2).1 _ hmem
      have hlt21 : strLt k1 k2 = true := by
        have h2k := h k2
        simp only [dlookup, if_pos rfl] at h2k
        rw [if_neg (Ne.symm hk)] at h2k
        have hmem := dlookup_mem h2k
        exact (List.pairwise_cons.mp h1).1 _ hmem
      rw [strLt_asymm hlt21] at hlt12
      cases hlt12

theorem mem_sortedIns : ∀ {o : Obj} {k : String} {v : JVal} {p : String × JVal},
    p ∈ sortedIns o k v → p = (k, v) ∨ p ∈ o := by
  intro o
  induction o with
  | nil => intro k v p h; simpa [sortedIns] using h
  | cons q t ih =>
    intro k v p h
    simp only [sortedIns] at h
    by_cases hlt : strLt k q.1
    · rw [if_pos hlt] at h
      simp only [List.mem_cons] at h
      rcases h with h | h | h
      · exact Or.inl h
      · exact Or.inr (by simp [h])
      · exact Or.inr (List.mem_cons_of_mem _ h)
    · rw [if_neg hlt] at h
      simp only [List.mem_cons] at h
      rcases h with h | h
      · exact Or.inr (by simp [h])
      · rcases ih h with h' | h'
        · exact Or.inl h'
        · exact Or.inr (List.mem_cons_of_mem _ h')

theorem sortedIns_keysSorted : ∀ (o : Obj) (k : String) (v : JVal),
    keysSorted o → dlookup o k = none → keysSorted (sortedIns o k v) := by
  intro o
  induction o with
  | nil => intro k v _ _; simp [sortedIns, keysSorted]
  | cons q t ih =>
    intro k v ho hk
    simp only [dlookup] at hk
    by_cases hkq : k = q.1
    · rw [if_pos hkq] at hk
      cases hk
    · rw [if_neg hkq] at hk
      rw [keysSorted, List.pairwise_cons] at ho
      simp only [sortedIns]
      by_cases hlt : strLt k q.1
      · rw [if_pos hlt]
        refine List.pairwise_cons.mpr ⟨?_, List.pairwise_cons.mpr ho⟩
        intro p hp
        rcases List.mem_cons.mp hp with hp | hp
        · rw [hp]
          exact hlt
        · exact strLt_trans hlt (ho.1 _ hp)
      · rw [if_neg hlt]
        have hqk : strLt q.1 k = true := by
          rcases strLt_total k q.1 hkq with hc | hc
          · rw [hc] at hlt
            exact absurd rfl hlt
          · exact hc
        refine List.pairwise_cons.mpr ⟨?_, ih k v ho.2 hk⟩
        intro p hp
        rcases mem_sortedIns hp with hp | hp
        · rw [hp]
          exact hqk
        · exact ho.1 _ hp

theorem mem_replaceFirst_key : ∀ {o : Obj} {k : String} {v : JVal} {p : String × JVal},
    p ∈ replaceFirst o k v → ∃ q ∈ o, q.1 = p.1 := by
  intro o
  induction o with
  | nil => intro k v p h; simp [replaceFirst] at h
  | cons q t ih =>
    intro k v p h
    simp only [replaceFirst] at h
    by_cases hkq : k = q.1
    · rw [if_pos hkq] at h
      rcases List.mem_cons.mp h with h | h
      · exact ⟨q, List.mem_cons_self _ _, by rw [h, ← hkq]⟩
      · exact ⟨p, List.mem_cons_of_mem _ h, rfl⟩
    · rw [if_neg hkq] at h
      rcases List.mem_cons.mp h with h | h
      · exact ⟨q, List.mem_cons_self _ _, by rw [h]⟩
      · obtain ⟨q', hq', he⟩ := ih h
        exact ⟨q', List.mem_cons_of_mem _ hq', he⟩

theorem replaceFirst_keysSorted : ∀ (o : Obj) (k : String) (v : JVal),
    keysSorted o → keysSorted (replaceFirst o k v) := by
  intro o
  induction o with
  | nil => intro k v _; simp [replaceFirst, keysSorted]
  | cons q t ih =>
    intro k v ho
    rw [keysSorted, List.pairwise_cons] at ho
    simp only [replaceFirst]
    by_cases hkq : k = q.1
    · rw [if_pos hkq]
      refine List.pairwise_cons.mpr ⟨?_, ho.2⟩
      intro p hp
      simpa [hkq] using ho.1 _ hp
    · rw [if_neg hkq]
      refine List.pairwise_cons.mpr ⟨?_, ih k v ho.2⟩
      intro p hp
      obtain ⟨q', hq', he⟩ := mem_replaceFirst_key hp
      rw [← he]
      exact ho.1 _ hq'

theorem dinsert_keysSorted (o : Obj) (k : String) (v : JVal) (ho : keysSorted o) :
    keysSorted (dinsert o k v) := by
  unfold dinsert
  cases h : dlookup o k with
  | none => exact sortedIns_keysSorted o k v ho h
  | some w => exact replaceFirst_keysSorted o k v ho

theorem dinsert_ne_nil (o : Obj) (k : String) (v : JVal) : dinsert o k v ≠ [] := by
  unfold dinsert
  cases h : dlookup o k with
  | none =>
    cases o with
    | nil => simp [sortedIns]
    | cons q t =>
      simp only [sortedIns]
      by_cases hlt : strLt k q.1 <;> simp [hlt]
  | some w =>
    cases o with
    | nil => simp [dlookup] at h
    | cons q t =>
      simp only [replaceFirst]
      by_cases hkq : k = q.1 <;> simp [hkq]

/-! ## Claims C2, C5, C6: the normalizer -/

/-- The aliasing reassignments rewrite the values already present. -/
theorem muReassign_eq (mo : Obj) : muReassign mo = mo := by
  unfold muReassign
  cases h1 : dlookup mo "submitStatsGlobal" with
  | none =>
    cases h2 : dlookup mo "submitStats" with
    | none => simp [h2]
    | some v => simp [h2, dinsert_lookup_self mo _ _ h2]
  | some v =>
    have e1 : dinsert mo "submitStatsGlobal" v = mo := dinsert_lookup_self mo _ _ h1
    cases h2 : dlookup mo "submitStats" with
    | none => simp [e1, h2]
    | some w => simp [e1, h2, dinsert_lookup_self mo _ _ h2]

theorem dsetdefault_fst_lookup_same (o : Obj) (k : String) (v : JVal) :
    dlookup (dsetdefault o k v).1 k = some (dsetdefault o k v).2 := by
  unfold dsetdefault
  cases h : dlookup o k with
  | some w => simpa using h
  | none => simp [dlookup_dinsert_self]

theorem dsetdefault_fst_lookup_ne (o : Obj) (k : String) (v : JVal) (x : String)
    (h : x ≠ k) : dlookup (dsetdefault o k v).1 x = dlookup o x := by
  unfold dsetdefault
  cases hh : dlookup o k with
  | some w => rfl
  | none => simpa using dlookup_dinsert_ne o k v x h

theorem dsetdefault_keysSorted (o : Obj) (k : String) (v : JVal)
    (ho : keysSorted o) : keysSorted (dsetdefault o k v).1 := by
  unfold dsetdefault
  cases hh : dlookup o k with
  | some w => exact ho
  | none => exact dinsert_keysSorted o k v ho

theorem dsetdefault_fst_ne_nil (o : Obj) (k : String) (v : JVal) :
    (dsetdefault o k v).1 ≠ [] := by
  unfold dsetdefault
  cases h : dlookup o k with
  | none => exact dinsert_ne_nil _ _ _
  | some w =>
    cases o with
    | nil => simp [dlookup] at h
    | cons p t => simp

/-- The matched-user binding is absent or a non-empty dictionary. -/
def MuFact (o : Obj) : Prop :=
  dlookup o "matchedUser" = none ∨
    ∃ m, dlookup o "matchedUser" = some (.obj m) ∧ m ≠ []

/-- The dictionary content of the matched-user binding (empty if absent). -/
def muObjOf (o : Obj) : Obj :=
  match dlookup o "matchedUser" with
  | some (.obj m) => m
  | _ => []

theorem phase1_facts (jd : Obj) :
    keysSorted (normPhase1 jd) ∧ MuFact (normPhase1 jd) ∧
    (∀ k, k ≠ "matchedUser" → dlookup (normPhase1 jd) k = none) ∧
    dlookup (normPhase1 jd) "matchedUser" =
      (match muSelect jd with
       | .obj mo => if mo.isEmpty then none else some (.obj mo)
       | _ => none) := by
  unfold normPhase1
  cases hm : muSelect jd with
  | obj mo =>
    simp only []
    by_cases ht : truthy (.obj mo)
    · rw [if_pos ht]
      rw [muReassign_eq]
      have hemp : mo.isEmpty = false := by
        simpa [truthy] using ht
      have hins : dinsert [] "matchedUser" (.obj mo) = [("matchedUser", .obj mo)] := rfl
      rw [hins]
      refine ⟨?_, ?_, ?_, ?_⟩
      · simp [keysSorted]
      · exact Or.inr ⟨mo, by simp [dlookup], by simpa using hemp⟩
      · intro k hk
        simp [dlookup, hk]
      · simp [dlookup, hemp]
    · rw [if_neg ht]
      have hemp : mo.isEmpty = true := by
        simpa [truthy] using ht
      refine ⟨by simp [keysSorted], Or.inl rfl, fun k _ => rfl, ?_⟩
      simp [dlookup, hemp]
  | null => exact ⟨by simp [keysSorted], Or.inl rfl, fun k _ => rfl, by simp [dlookup]⟩
  | bool b => exact ⟨by simp [keysSorted], Or.inl rfl, fun k _ => rfl, by simp [dlookup]⟩
  | int n => exact ⟨by simp [keysSorted], Or.inl rfl, fun k _ => rfl, by simp [dlookup]⟩
  | str s => exact ⟨by simp [keysSorted], Or.inl rfl, fun k _ => rfl, by simp [dlookup]⟩
  | arr xs => exact ⟨by simp [keysSorted], Or.inl rfl, fun k _ => rfl, by simp [dlookup]⟩

theorem phaseTop_facts (jd o : Obj) (k : String) (hs : keysSorted o) (hm : MuFact o) :
    ∃ o', normPhaseTop jd o k = some o' ∧ keysSorted o' ∧ MuFact o' ∧
      (∀ x, x ≠ "matchedUser" → dlookup o' x = dlookup o x) ∧
      dlookup o' "matchedUser" =
        (match dlookup jd k with
         | none => dlookup o "matchedUser"
         | some v => some (.obj (dinsert (muObjOf o) k v))) ∧
      (dlookup jd k = none → o' = o) := by
  unfold normPhaseTop
  cases hjd : dlookup jd k with
  | none =>
    exact ⟨o, rfl, hs, hm, fun _ _ => rfl, by simp, fun _ => rfl⟩
  | some v =>
    rcases hm with hnone | ⟨m, hsome, hne⟩
    · have hsd : dsetdefault o "matchedUser" (.obj []) =
          (dinsert o "matchedUser" (.obj []), .obj []) := by
        unfold dsetdefault
        rw [hnone]
      simp only [hsd]
      have hmo : muObjOf o = [] := by
        unfold muObjOf
        rw [hnone]
      refine ⟨_, rfl, ?_, ?_, ?_, ?_, ?_⟩
      · exact dinsert_keysSorted _ _ _ (dinsert_keysSorted _ _ _ hs)
      · exact Or.inr ⟨_, dlookup_dinsert_self _ _ _, dinsert_ne_nil _ _ _⟩
      · intro x hx
        rw [dlookup_dinsert_ne _ _ _ _ hx, dlookup_dinsert_ne _ _ _ _ hx]
      · rw [dlookup_dinsert_self, hmo]
      · intro hc
        exact Option.noConfusion hc
    · have hsd : dsetdefault o "matchedUser" (.obj []) = (o, .obj m) := by
        unfold dsetdefault
        rw [hsome]
      simp only [hsd]
      have hmo : muObjOf o = m := by
        unfold muObjOf
        rw [hsome]
      refine ⟨_, rfl, ?_, ?_, ?_, ?_, ?_⟩
      · exact dinsert_keysSorted _ _ _ hs
      · exact Or.inr ⟨_, dlookup_dinsert_self _ _ _, dinsert_ne_nil _ _ _⟩
      · intro x hx
        rw [dlookup_dinsert_ne _ _ _ _ hx]
      · rw [dlookup_dinsert_self, hmo]
      · intro hc
        exact Option.noConfusion hc

theorem phase4_facts (jd o : Obj) (hs : keysSorted o) :
    keysSorted (normPhase4 jd o) ∧
    (∀ x, x ≠ "userContestRanking" → dlookup (normPhase4 jd o) x = dlookup o x) ∧
    dlookup (normPhase4 jd o) "userContestRanking" =
      (if truthy (ucrSelect jd) then some (ucrSelect jd)
       else dlookup o "userContestRanking") ∧
    (truthy (ucrSelect jd) = false → normPhase4 jd o = o) := by
  simp only [normPhase4]
  by_cases ht : truthy (ucrSelect jd)
  · rw [if_pos ht, if_pos ht]
    exact ⟨dinsert_keysSorted _ _ _ hs, fun x hx => dlookup_dinsert_ne _ _ _ _ hx,
      dlookup_dinsert_self _ _ _, fun hc => by rw [ht] at hc; cases hc⟩
  · rw [if_neg ht, if_neg ht]
    exact ⟨hs, fun _ _ => rfl, rfl, fun _ => rfl⟩

theorem phase5_facts (jd o : Obj) (hs : keysSorted o) (hm : MuFact o) :
    ∃ o', normPhase5 jd o = some o' ∧ keysSorted o' ∧ MuFact o' ∧
      (∀ x, x ≠ "matchedUser" → dlookup o' x = dlookup o x) ∧
      dlookup o' "matchedUser" =
        (match dlookup jd "submissionCalendar" with
         | none => dlookup o "matchedUser"
         | some v => some (.obj (dsetdefault (muObjOf o) "submissionCalendar" v).1)) ∧
      (dlookup jd "submissionCalendar" = none → o' = o) ∧
      (∀ m v, dlookup o "matchedUser" = some (.obj m) →
        (dlookup m "submissionCalendar").isSome = true →
        dlookup jd "submissionCalendar" = some v → o' = o) := by
  unfold normPhase5
  cases hjd : dlookup jd "submissionCalendar" with
  | none =>
    exact ⟨o, rfl, hs, hm, fun _ _ => rfl, by simp, fun _ => rfl,
      fun _ _ _ _ hc => Option.noConfusion hc⟩
  | some v =>
    rcases hm with hnone | ⟨m, hsome, hne⟩
    · have hsd : dsetdefault o "matchedUser" (.obj []) =
          (dinsert o "matchedUser" (.obj []), .obj []) := by
        unfold dsetdefault
        rw [hnone]
      simp only [hsd]
      have hmo : muObjOf o = [] := by
        unfold muObjOf
        rw [hnone]
      refine ⟨_, rfl, ?_, ?_, ?_, ?_, ?_, ?_⟩
      · exact dinsert_keysSorted _ _ _ (dinsert_keysSorted _ _ _ hs)
      · exact Or.inr ⟨_, dlookup_dinsert_self _ _ _, dsetdefault_fst_ne_nil _ _ _⟩
      · intro x hx
        rw [dlookup_dinsert_ne _ _ _ _ hx, dlookup_dinsert_ne _ _ _ _ hx]
      · rw [dlookup_dinsert_self, hmo]
      · intro hc
        exact Option.noConfusion hc
      · intro m' v' hm' _ _
        rw [hnone] at hm'
        cases hm'
    · have hsd : dsetdefault o "matchedUser" (.obj []) = (o, .obj m) := by
        unfold dsetdefault
        rw [hsome]
      simp only [hsd]
      have hmo : muObjOf o = m := by
        unfold muObjOf
        rw [hsome]
      refine ⟨_, rfl, ?_, ?_, ?_, ?_, ?_, ?_⟩
      · exact dinsert_keysSorted _ _ _ hs
      · exact Or.inr ⟨_, dlookup_dinsert_self _ _ _, dsetdefault_fst_ne_nil _ _ _⟩
      · intro x hx
        rw [dlookup_dinsert_ne _ _ _ _ hx]
      · rw [dlookup_dinsert_self, hmo]
      · intro hc
        exact Option.noConfusion hc
      · intro m' v' hm' hkey hc
        rw [hsome] at hm'
        have hmm : m = m' := by
          simpa using hm'
        subst hmm
        have hfst : (dsetdefault m "submissionCalendar" v).1 = m := by
          unfold dsetdefault
          cases hk : dlookup m "submissionCalendar" with
          | none => rw [hk] at hkey; simp at hkey
          | some w => rfl
        rw [hfst]
        exact dinsert_lookup_self o _ _ hsome

theorem copyLoose_facts (jd o : Obj) (k : String) (hs : keysSorted o) :
    keysSorted (copyLoose jd o k) ∧
    (∀ x, x ≠ k → dlookup (copyLoose jd o k) x = dlookup o x) ∧
    dlookup (copyLoose jd o k) k =
      (match dlookup jd k with
       | some v => some v
       | none => dlookup o k) := by
  unfold copyLoose
  cases hjd : dlookup jd k with
  | none => exact ⟨hs, fun _ _ => rfl, rfl⟩
  | some v =>
    exact ⟨dinsert_keysSorted _ _ _ hs, fun x hx => dlookup_dinsert_ne _ _ _ _ hx,
      dlookup_dinsert_self _ _ _⟩

/-- The six keys a normalized payload may carry. -/
def normKeys : List String :=
  ["matchedUser", "userContestRanking", "acceptanceRate", "streak", "activeDays",
   "submissionCalendar"]

/-- Invariant characterizing every normalizer output. -/
structure NormOut (o : Obj) : Prop where
  sorted : keysSorted o
  mu : MuFact o
  onlyKeys : ∀ k, k ∉ normKeys → dlookup o k = none
  ucrTruthy : ∀ v, dlookup o "userContestRanking" = some v → truthy v = true
  calLink : ∀ v, dlookup o "submissionCalendar" = some v →
    ∃ m, dlookup o "matchedUser" = some (.obj m) ∧
      (dlookup m "submissionCalendar").isSome = true

/-- The dictionary content of an optional matched-user value. -/
def muValObj : Option JVal → Obj
  | some (.obj m) => m
  | _ => []

/-- The matched-user binding after phase 1. -/
def muStage0 (jd : Obj) : Option JVal :=
  match muSelect jd with
  | .obj mo => if mo.isEmpty then none else some (.obj mo)
  | _ => none

/-- ... after the top-level `submitStatsGlobal` overwrite. -/
def muStage1 (jd : Obj) : Option JVal :=
  match dlookup jd "submitStatsGlobal" with
  | none => muStage0 jd
  | some v => some (.obj (dinsert (muValObj (muStage0 jd)) "submitStatsGlobal" v))

/-- ... after the top-level `submitStats` overwrite. -/
def muStage2 (jd : Obj) : Option JVal :=
  match dlookup jd "submitStats" with
  | none => muStage1 jd
  | some v => some (.obj (dinsert (muValObj (muStage1 jd)) "submitStats" v))

/-- The final matched-user binding, after the calendar setdefault. -/
def muFinal (jd : Obj) : Option JVal :=
  match dlookup jd "submissionCalendar" with
  | none => muStage2 jd
  | some v => some (.obj (dsetdefault (muValObj (muStage2 jd)) "submissionCalendar" v).1)

theorem muObjOf_eq_val (o : Obj) : muObjOf o = muValObj (dlookup o "matchedUser") := rfl

theorem MuFact_of_eq {o o' : Obj}
    (he : dlookup o' "matchedUser" = dlookup o "matchedUser") (h : MuFact o) :
    MuFact o' := by
  rcases h with h | ⟨m, hm, hne⟩
  · exact Or.inl (he.trans h)
  · exact Or.inr ⟨m, he.trans hm, hne⟩

/-- Master characterization of one normalizer pass on a dictionary. -/
theorem normalize_lookup (jd : Obj) :
    ∃ o, _normalize_leetcode_json (.obj jd) = some (.obj o) ∧ NormOut o ∧
      dlookup o "matchedUser" = muFinal jd ∧
      dlookup o "userContestRanking" =
        (if truthy (ucrSelect jd) then some (ucrSelect jd) else none) ∧
      dlookup o "acceptanceRate" = dlookup jd "acceptanceRate" ∧
      dlookup o "streak" = dlookup jd "streak" ∧
      dlookup o "activeDays" = dlookup jd "activeDays" ∧
      dlookup o "submissionCalendar" = dlookup jd "submissionCalendar" := by
  obtain ⟨s1, m1, other1, mu1⟩ := phase1_facts jd
  obtain ⟨o2, ho2, s2, m2, e2, mu2, -⟩ :=
    phaseTop_facts jd (normPhase1 jd) "submitStatsGlobal" s1 m1
  obtain ⟨o3, ho3, s3, m3, e3, mu3, -⟩ := phaseTop_facts jd o2 "submitStats" s2 m2
  obtain ⟨s4, e4, ucr4, -⟩ := phase4_facts jd o3 s3
  have m4 : MuFact (normPhase4 jd o3) :=
    MuFact_of_eq (e4 "matchedUser" (by decide)) m3
  obtain ⟨o5, ho5, s5, m5, e5, mu5, -, -⟩ := phase5_facts jd (normPhase4 jd o3) s4 m4
  obtain ⟨c1s, c1e, c1k⟩ := copyLoose_facts jd o5 "acceptanceRate" s5
  obtain ⟨c2s, c2e, c2k⟩ :=
    copyLoose_facts jd (copyLoose jd o5 "acceptanceRate") "streak" c1s
  obtain ⟨c3s, c3e, c3k⟩ := copyLoose_facts jd
    (copyLoose jd (copyLoose jd o5 "acceptanceRate") "streak") "activeDays" c2s
  obtain ⟨c4s, c4e, c4k⟩ := copyLoose_facts jd
    (copyLoose jd (copyLoose jd (copyLoose jd o5 "acceptanceRate") "streak")
      "activeDays") "submissionCalendar" c3s
  refine ⟨normPhase6 jd o5, ?_, ?_, ?_, ?_, ?_, ?_, ?_, ?_⟩
  -- the normalize equation
  · unfold _normalize_leetcode_json
    simp only [Option.bind_eq_bind', ho2, Option.some_bind, ho3, ho5]
  -- the three characterizations of the matched user through the stages
  all_goals
    have hmu1 : dlookup (normPhase1 jd) "matchedUser" = muStage0 jd := by
      rw [mu1]; rfl
    have hmu2 : dlookup o2 "matchedUser" = muStage1 jd := by
      rw [mu2, muObjOf_eq_val, hmu1]
      unfold muStage1
      cases dlookup jd "submitStatsGlobal" <;> simp [hmu1]
    have hmu3 : dlookup o3 "matchedUser" = muStage2 jd := by
      rw [mu3, muObjOf_eq_val, hmu2]
      unfold muStage2
      cases dlookup jd "submitStats" <;> simp [hmu2]
    have hmu4 : dlookup (normPhase4 jd o3) "matchedUser" = muStage2 jd := by
      rw [e4 "matchedUser" (by decide), hmu3]
    have hmu5 : dlookup o5 "matchedUser" = muFinal jd := by
      rw [mu5, muObjOf_eq_val, hmu4]
      unfold muFinal
      cases dlookup jd "submissionCalendar" <;> simp [hmu4]
    have hmu6 : dlookup (normPhase6 jd o5) "matchedUser" = muFinal jd := by
      unfold normPhase6
      rw [c4e _ (by decide), c3e _ (by decide), c2e _ (by decide), c1e _ (by decide)]
      exact hmu5
    have hucr6 : dlookup (normPhase6 jd o5) "userContestRanking" =
        (if truthy (ucrSelect jd) then some (ucrSelect jd) else none) := by
      unfold normPhase6
      rw [c4e _ (by decide), c3e _ (by decide), c2e _ (by decide), c1e _ (by decide),
        e5 _ (by decide), ucr4, e3 _ (by decide), e2 _ (by decide),
        other1 _ (by decide)]
    have hcal6 : dlookup (normPhase6 jd o5) "submissionCalendar" =
        dlookup jd "submissionCalendar" := by
      unfold normPhase6
      rw [c4k, c3e _ (by decide), c2e _ (by decide), c1e _ (by decide),
        e5 _ (by decide), e4 _ (by decide), e3 _ (by decide), e2 _ (by decide),
        other1 _ (by decide)]
      cases dlookup jd "submissionCalendar" <;> rfl
  -- NormOut
  · refine ⟨?_, ?_, ?_, ?_, ?_⟩
    · exact c4s
    · exact MuFact_of_eq (hmu6.trans hmu5.symm) m5
    · intro k hk
      simp only [normKeys, List.mem_cons, List.not_mem_nil, or_false, not_or] at hk
      obtain ⟨k1, k2, k3, k4, k5, k6⟩ := hk
      unfold normPhase6
      rw [c4e _ k6, c3e _ k5, c2e _ k4, c1e _ k3, e5 _ k1, e4 _ k2, e3 _ k1,
        e2 _ k1, other1 _ k1]
    · intro v hv
      rw [hucr6] at hv
      by_cases ht : truthy (ucrSelect jd)
      · rw [if_pos ht] at hv
        cases hv
        exact ht
      · rw [if_neg ht] at hv
        cases hv
    · intro v hv
      rw [hcal6] at hv
      refine ⟨(dsetdefault (muValObj (muStage2 jd)) "submissionCalendar" v).1, ?_, ?_⟩
      · rw [hmu6]
        unfold muFinal
        rw [hv]
      · rw [dsetdefault_fst_lookup_same]; rfl
  · exact hmu6
  · exact hucr6
  · unfold normPhase6
    rw [c4e _ (by decide), c3e _ (by decide), c2e _ (by decide), c1k,
      e5 _ (by decide), e4 _ (by decide), e3 _ (by decide), e2 _ (by decide),
      other1 _ (by decide)]
    cases dlookup jd "acceptanceRate" <;> rfl
  · unfold normPhase6
    rw [c4e _ (by decide), c3e _ (by decide), c2k, c1e _ (by decide),
      e5 _ (by decide), e4 _ (by decide), e3 _ (by decide), e2 _ (by decide),
      other1 _ (by decide)]
    cases dlookup jd "streak" <;> rfl
  · unfold normPhase6
    rw [c4e _ (by decide), c3k, c2e _ (by decide), c1e _ (by decide),
      e5 _ (by decide), e4 _ (by decide), e3 _ (by decide), e2 _ (by decide),
      other1 _ (by decide)]
    cases dlookup jd "activeDays" <;> rfl
  · exact hcal6

theorem dsetdefault_fst_of_isSome (o : Obj) (k : String) (v : JVal)
    (h : (dlookup o k).isSome = true) : (dsetdefault o k v).1 = o := by
  unfold dsetdefault
  cases hh : dlookup o k with
  | some w => rfl
  | none => rw [hh] at h; cases h

theorem muStage0_of_normOut {o : Obj} (h : NormOut o) :
    muStage0 o = dlookup o "matchedUser" := by
  have hd : dlookup o "data" = none := h.onlyKeys "data" (by decide)
  have hu : dlookup o "user" = none := h.onlyKeys "user" (by decide)
  have hp : dlookup o "profile" = none := h.onlyKeys "profile" (by decide)
  rcases h.mu with hm | ⟨m, hm, hne⟩
  · unfold muStage0 muSelect
    rw [hd, hm, hu, hp]
    simp [pyOr, truthy]
  · have hne' : m.isEmpty = false := by
      cases m with
      | nil => exact absurd rfl hne
      | cons a t => rfl
    unfold muStage0 muSelect
    rw [hd, hm, hu, hp]
    simp [pyOr, truthy, hne']

theorem muFinal_of_normOut {o : Obj} (h : NormOut o) :
    muFinal o = dlookup o "matchedUser" := by
  have h0 := muStage0_of_normOut h
  have h1 : muStage1 o = dlookup o "matchedUser" := by
    unfold muStage1
    rw [h.onlyKeys "submitStatsGlobal" (by decide), h0]
  have h2 : muStage2 o = dlookup o "matchedUser" := by
    unfold muStage2
    rw [h.onlyKeys "submitStats" (by decide), h1]
  unfold muFinal
  cases hcal : dlookup o "submissionCalendar" with
  | none => exact h2
  | some v =>
    obtain ⟨m, hm, hk⟩ := h.calLink v hcal
    rw [h2, hm]
    simp only [muValObj]
    rw [dsetdefault_fst_of_isSome m "submissionCalendar" v hk]

theorem ucrSelect_of_normOut {o : Obj} (h : NormOut o) :
    (if truthy (ucrSelect o) then some (ucrSelect o) else none) =
      dlookup o "userContestRanking" := by
  have hd : dlookup o "data" = none := h.onlyKeys "data" (by decide)
  have hh : dlookup o "userContestRankingHistory" = none :=
    h.onlyKeys "userContestRankingHistory" (by decide)
  cases hu : dlookup o "userContestRanking" with
  | none =>
    have hz : ucrSelect o = .null := by
      unfold ucrSelect
      rw [hd, hu, hh]
      simp [pyOr, truthy]
    rw [hz]
    rfl
  | some v =>
    have ht := h.ucrTruthy v hu
    have hz : ucrSelect o = v := by
      unfold ucrSelect
      rw [hd, hu, hh]
      show pyOr v JVal.null = v
      unfold pyOr
      rw [if_pos ht]
    rw [hz, if_pos ht]

/-- Any object satisfying the `NormOut` invariant is a fixed point of the
normalizer. -/
theorem normOut_fixed {o : Obj} (h : NormOut o) :
    _normalize_leetcode_json (.obj o) = some (.obj o) := by
  obtain ⟨o', heq, hno, hmu, hucr, har, hst, had, hcal⟩ := normalize_lookup o
  have ho : o' = o := by
    apply sorted_ext o' o hno.sorted h.sorted
    intro k
    by_cases hk : k ∈ normKeys
    · simp only [normKeys, List.mem_cons, List.not_mem_nil, or_false] at hk
      rcases hk with rfl | rfl | rfl | rfl | rfl | rfl
      · rw [hmu, muFinal_of_normOut h]
      · rw [hucr, ucrSelect_of_normOut h]
      · exact har
      · exact hst
      · exact had
      · exact hcal
    · rw [hno.onlyKeys k hk, h.onlyKeys k hk]
  rw [ho] at heq
  exact heq

/-- C2: the Schema Normalizer is idempotent — whenever a pass over an input
value succeeds with output `v`, running `_normalize_leetcode_json` on `v`
returns `v` unchanged (so normalizing twice equals normalizing once). -/
theorem normalizer_idempotent (j v : JVal)
    (h : _normalize_leetcode_json j = some v) :
    _normalize_leetcode_json v = some v := by
  cases j with
  | obj jd =>
    obtain ⟨o, heq, hno, -, -, -, -, -, -⟩ := normalize_lookup jd
    rw [heq] at h
    cases h
    exact normOut_fixed hno
  | null => cases h; rfl
  | bool b => cases h; rfl
  | int n => cases h; rfl
  | str s => cases h; rfl
  | arr xs => cases h; rfl

theorem normalizer_idempotent_witness :
    _normalize_leetcode_json
      (.obj [("matchedUser", .obj [("submissionCalendar", .int 2)]),
             ("submissionCalendar", .int 2), ("userContestRanking", .int 1)]) =
    some (.obj [("matchedUser", .obj [("submissionCalendar", .int 2)]),
                ("submissionCalendar", .int 2), ("userContestRanking", .int 1)]) :=
  normalizer_idempotent
    (.obj [("userContestRanking", .int 1), ("submissionCalendar", .int 2)]) _ rfl

/-- C6: the Normalizer is total — on every value it returns a payload
dictionary rather than raising, and a non-dictionary input yields the empty
payload.  Moreover absent branches leave the corresponding payload fields
unset: with no usable matched user and no top-level statistics or calendar
key there is no `matchedUser` field, a falsy contest-ranking selection sets
no `userContestRanking`, each absent loose key stays absent, and no key
outside the six canonical ones is ever set. -/
theorem normalizer_total :
    (∀ j : JVal, ∃ o : Obj, _normalize_leetcode_json j = some (.obj o)) ∧
    (∀ j : JVal, isObjB j = false → _normalize_leetcode_json j = some (.obj [])) ∧
    (∀ jd o : Obj, _normalize_leetcode_json (.obj jd) = some (.obj o) →
      (truthy (muSelect jd) = false → dlookup jd "submitStatsGlobal" = none →
        dlookup jd "submitStats" = none → dlookup jd "submissionCalendar" = none →
        dlookup o "matchedUser" = none) ∧
      (truthy (ucrSelect jd) = false → dlookup o "userContestRanking" = none) ∧
      (dlookup jd "acceptanceRate" = none → dlookup o "acceptanceRate" = none) ∧
      (dlookup jd "streak" = none → dlookup o "streak" = none) ∧
      (dlookup jd "activeDays" = none → dlookup o "activeDays" = none) ∧
      (dlookup jd "submissionCalendar" = none →
        dlookup o "submissionCalendar" = none) ∧
      (∀ k, k ∉ normKeys → dlookup o k = none)) := by
  refine ⟨?_, ?_, ?_⟩
  · intro j
    cases j with
    | obj jd =>
      obtain ⟨o, heq, -, -, -, -, -, -, -⟩ := normalize_lookup jd
      exact ⟨o, heq⟩
    | null => exact ⟨[], rfl⟩
    | bool b => exact ⟨[], rfl⟩
    | int n => exact ⟨[], rfl⟩
    | str s => exact ⟨[], rfl⟩
    | arr xs => exact ⟨[], rfl⟩
  · intro j hj
    cases j with
    | obj jd => cases hj
    | null => rfl
    | bool b => rfl
    | int n => rfl
    | str s => rfl
    | arr xs => rfl
  · intro jd o h
    obtain ⟨o', heq, hno, hmu, hucr, har, hst, had, hcal⟩ := normalize_lookup jd
    rw [heq] at h
    have ho : o' = o := by simpa using h
    subst ho
    refine ⟨?_, ?_, ?_, ?_, ?_, ?_, hno.onlyKeys⟩
    · intro hmt hg hs hc
      have h0 : muStage0 jd = none := by
        unfold muStage0
        cases hm : muSelect jd with
        | obj mo =>
          rw [hm] at hmt
          have he : mo.isEmpty = true := by simpa [truthy] using hmt
          simp [he]
        | null => rfl
        | bool b => rfl
        | int n => rfl
        | str s => rfl
        | arr xs => rfl
      have h1 : muStage1 jd = none := by
        unfold muStage1
        rw [hg, h0]
      have h2 : muStage2 jd = none := by
        unfold muStage2
        rw [hs, h1]
      rw [hmu]
      unfold muFinal
      rw [hc, h2]
    · intro hu
      rw [hucr, if_neg (by simp [hu])]
    · intro ha
      rw [har, ha]
    · intro ha
      rw [hst, ha]
    · intro ha
      rw [had, ha]
    · intro ha
      rw [hcal, ha]

theorem normalizer_total_witness :
    _normalize_leetcode_json (.int 7) = some (.obj []) :=
  normalizer_total.2.1 (.int 7) rfl

/-- C5 counterexample: a top-level `submitStatsGlobal` entry OVERWRITES the
already-populated user-level statistics field (the user record carried
`"userlevel"`, the output carries `"toplevel"`), contradicting the claim that
the normalizer never overwrites an already-populated statistics field. -/
theorem normalizer_merge_claim_refuted :
    _normalize_leetcode_json
      (.obj [("matchedUser", .obj [("submitStatsGlobal", .str "userlevel")]),
             ("submitStatsGlobal", .str "toplevel")]) =
      some (.obj [("matchedUser",
        .obj [("submitStatsGlobal", .str "toplevel")])]) ∧
    JVal.str "toplevel" ≠ JVal.str "userlevel" := by
  refine ⟨rfl, ?_⟩
  intro h
  have : "toplevel" = "userlevel" := JVal.str.inj h
  exact absurd this (by decide)

/-- C5 (amended): the normalizer gives top-level statistics keys priority.
A top-level `submitStatsGlobal` or `submitStats` entry always becomes the
matched user's value for that key, overwriting any user-level one; only when
both top-level keys are absent are the user-level statistics fields of the
selected non-empty user record preserved. -/
theorem normalizer_merge_spec (jd o : Obj)
    (h : _normalize_leetcode_json (.obj jd) = some (.obj o)) :
    (∀ v, dlookup jd "submitStatsGlobal" = some v →
      ∃ m, dlookup o "matchedUser" = some (.obj m) ∧
        dlookup m "submitStatsGlobal" = some v) ∧
    (∀ v, dlookup jd "submitStats" = some v →
      ∃ m, dlookup o "matchedUser" = some (.obj m) ∧
        dlookup m "submitStats" = some v) ∧
    (dlookup jd "submitStatsGlobal" = none → dlookup jd "submitStats" = none →
      ∀ mo, muSelect jd = .obj mo → mo ≠ [] →
      ∃ m, dlookup o "matchedUser" = some (.obj m) ∧
        dlookup m "submitStatsGlobal" = dlookup mo "submitStatsGlobal" ∧
        dlookup m "submitStats" = dlookup mo "submitStats") := by
  obtain ⟨o', heq, -, hmu, -, -, -, -, -⟩ := normalize_lookup jd
  rw [heq] at h
  have ho : o' = o := by simpa using h
  subst ho
  refine ⟨?_, ?_, ?_⟩
  · intro v hv
    have h1 : muStage1 jd =
        some (.obj (dinsert (muValObj (muStage0 jd)) "submitStatsGlobal" v)) := by
      unfold muStage1
      rw [hv]
    rw [hmu]
    cases hss : dlookup jd "submitStats" with
    | none =>
      have h2 : muStage2 jd = muStage1 jd := by
        unfold muStage2
        rw [hss]
      cases hcal : dlookup jd "submissionCalendar" with
      | none =>
        have h3 : muFinal jd = muStage2 jd := by
          unfold muFinal
          rw [hcal]
        rw [h3, h2, h1]
        exact ⟨_, rfl, dlookup_dinsert_self _ _ _⟩
      | some c =>
        have h3 : muFinal jd = some (.obj
            (dsetdefault (muValObj (muStage2 jd)) "submissionCalendar" c).1) := by
          unfold muFinal
          rw [hcal]
        rw [h3, h2, h1]
        refine ⟨_, rfl, ?_⟩
        rw [dsetdefault_fst_lookup_ne _ "submissionCalendar" c "submitStatsGlobal"
          (by decide)]
        simp only [muValObj]
        exact dlookup_dinsert_self _ _ _
    | some w =>
      have h2 : muStage2 jd =
          some (.obj (dinsert (muValObj (muStage1 jd)) "submitStats" w)) := by
        unfold muStage2
        rw [hss]
      cases hcal : dlookup jd "submissionCalendar" with
      | none =>
        have h3 : muFinal jd = muStage2 jd := by
          unfold muFinal
          rw [hcal]
        rw [h3, h2, h1]
        refine ⟨_, rfl, ?_⟩
        simp only [muValObj]
        rw [dlookup_dinsert_ne _ "submitStats" w "submitStatsGlobal" (by decide)]
        exact dlookup_dinsert_self _ _ _
      | some c =>
        have h3 : muFinal jd = some (.obj
            (dsetdefault (muValObj (muStage2 jd)) "submissionCalendar" c).1) := by
          unfold muFinal
          rw [hcal]
        rw [h3, h2, h1]
        refine ⟨_, rfl, ?_⟩
        rw [dsetdefault_fst_lookup_ne _ "submissionCalendar" c "submitStatsGlobal"
          (by decide)]
        simp only [muValObj]
        rw [dlookup_dinsert_ne _ "submitStats" w "submitStatsGlobal" (by decide)]
        exact dlookup_dinsert_self _ _ _
  · intro v hv
    have h2 : muStage2 jd =
        some (.obj (dinsert (muValObj (muStage1 jd)) "submitStats" v)) := by
      unfold muStage2
      rw [hv]
    rw [hmu]
    cases hcal : dlookup jd "submissionCalendar" with
    | none =>
      have h3 : muFinal jd = muStage2 jd := by
        unfold muFinal
        rw [hcal]
      rw [h3, h2]
      exact ⟨_, rfl, dlookup_dinsert_self _ _ _⟩
    | some c =>
      have h3 : muFinal jd = some (.obj
          (dsetdefault (muValObj (muStage2 jd)) "submissionCalendar" c).1) := by
        unfold muFinal
        rw [hcal]
      rw [h3, h2]
      refine ⟨_, rfl, ?_⟩
      rw [dsetdefault_fst_lookup_ne _ "submissionCalendar" c "submitStats"
        (by decide)]
      simp only [muValObj]
      exact dlookup_dinsert_self _ _ _
  · intro hg hs mo hmo hne
    have hne' : mo.isEmpty = false := by
      cases mo with
      | nil => exact absurd rfl hne
      | cons a t => rfl
    have h0 : muStage0 jd = some (.obj mo) := by
      unfold muStage0
      rw [hmo]
      simp [hne']
    have h1 : muStage1 jd = some (.obj mo) := by
      unfold muStage1
      rw [hg, h0]
    have h2 : muStage2 jd = some (.obj mo) := by
      unfold muStage2
      rw [hs, h1]
    rw [hmu]
    cases hcal : dlookup jd "submissionCalendar" with
    | none =>
      have h3 : muFinal jd = muStage2 jd := by
        unfold muFinal
        rw [hcal]
      rw [h3, h2]
      exact ⟨mo, rfl, rfl, rfl⟩
    | some c =>
      have h3 : muFinal jd = some (.obj
          (dsetdefault (muValObj (muStage2 jd)) "submissionCalendar" c).1) := by
        unfold muFinal
        rw [hcal]
      rw [h3, h2]
      refine ⟨_, rfl, ?_, ?_⟩
      · simp only [muValObj]
        exact dsetdefault_fst_lookup_ne mo "submissionCalendar" c "submitStatsGlobal"
          (by decide)
      · simp only [muValObj]
        exact dsetdefault_fst_lookup_ne mo "submissionCalendar" c "submitStats"
          (by decide)

theorem normalizer_merge_spec_witness :
    ∃ m, dlookup [("matchedUser",
        JVal.obj [("submitStatsGlobal", JVal.str "toplevel")])] "matchedUser" =
        some (.obj m) ∧
      dlookup m "submitStatsGlobal" = some (.str "toplevel") :=
  (normalizer_merge_spec
    [("matchedUser", .obj [("submitStatsGlobal", .str "userlevel")]),
     ("submitStatsGlobal", .str "toplevel")]
    [("matchedUser", .obj [("submitStatsGlobal", .str "toplevel")])] rfl).1
    (.str "toplevel") rfl

/-- A concrete strategy environment in which every strategy fails to
validate: Playwright is unavailable, both GraphQL queries, the stats API and
the HTML scrape raise, one mirror yields a profile-only payload (ranking 7,
a one-entry submission calendar, no solved counts, so its extraction is
retained unvalidated), and the closing GraphQL retry reaches an extraction
with zero solved counts. -/
def c1Env : FetchEnv :=
  { pwAvailable := false
    pw := .exn
    gql1 := .exn
    gql2 := .exn
    statsApi := .exn
    htmlStats := .exn
    mirrors := [.ok (.obj [("matchedUser", .obj
      [("profile", .obj [("ranking", .int 7)]),
       ("submissionCalendar", .obj [("1", .int 1)])])])]
    finalGql := .ok (.obj [("data", .obj
      [("matchedUser", .obj [("username", .str "u")])])]) }

/-- The best-effort mirror candidate `c1Env` retains. -/
def c1Mr : Envelope :=
  ((runMirrors "u" c1Env.mirrors none).2).getD (leetcode_template "u")

/-- C1 counterexample: with every strategy failing to validate and a
best-effort mirror candidate retained, `fetch_leetcode_live` does NOT return
the retained candidate: the closing GraphQL retry returns its own zero-count
extraction with only three auxiliary fields merged in from the candidate, an
envelope that differs from the candidate already in its error message (and
it drops the candidate's submission calendar and profile-signal message). -/
theorem fetch_fallback_claim_refuted :
    runPw c1Env "u" = none ∧
    tryGqlQuery c1Env.gql1 "u" = none ∧
    tryGqlQuery c1Env.gql2 "u" = none ∧
    tryStatsApi c1Env.statsApi "u" = none ∧
    tryHtmlScrape c1Env.htmlStats "u" = none ∧
    runMirrors "u" c1Env.mirrors none = (none, some c1Mr) ∧
    fetch_leetcode_live c1Env "u" ≠ c1Mr := by
  refine ⟨rfl, rfl, rfl, rfl, rfl, rfl, ?_⟩
  intro h
  have h1 : (fetch_leetcode_live c1Env "u").report.errorMessage =
      some msgNotFound := rfl
  rw [h] at h1
  have h2 : c1Mr.report.errorMessage = some msgStatsUnavailable := rfl
  rw [h2] at h1
  exact absurd (Option.some.inj h1) (by decide)

/-- C1 (amended): when every strategy in the cascade yields no validated
result, `fetch_leetcode_live` falls back as follows.  With no retained
mirror candidate it returns the degraded template with the error flag set.
With a retained candidate whose `totalSolved` is nonzero it returns the
candidate as is.  With a retained candidate whose `totalSolved` equals zero
it first runs the closing GraphQL retry: if that block returns a result —
either its own validated extraction, or its unvalidated extraction with the
candidate's auxiliary fields merged into it — that result is returned
INSTEAD of the candidate; only when the retry produces nothing is the
candidate itself returned.  No upstream failure is ever propagated: the
function is total in the strategy outcomes. -/
theorem fetch_fallback_spec (env : FetchEnv) (u : String)
    (h1 : runPw env u = none) (h2 : tryGqlQuery env.gql1 u = none)
    (h3 : tryGqlQuery env.gql2 u = none) (h4 : tryStatsApi env.statsApi u = none)
    (h5 : tryHtmlScrape env.htmlStats u = none)
    (h6 : (runMirrors u env.mirrors none).1 = none) :
    ((runMirrors u env.mirrors none).2 = none →
      fetch_leetcode_live env u = leetcode_template u ∧
      (fetch_leetcode_live env u).report.error = true) ∧
    (∀ mr, (runMirrors u env.mirrors none).2 = some mr →
      fetch_leetcode_live env u =
        (if pyEqInt mr.report.totalSolved 0 then
          (finalRetry env.finalGql mr u).getD mr
         else mr)) := by
  constructor
  · intro hs
    have hp : runMirrors u env.mirrors none = (none, none) := Prod.ext h6 hs
    have hres : fetch_leetcode_live env u = leetcode_template u := by
      unfold fetch_leetcode_live
      rw [h1, h2, h3, h4, h5, hp]
    exact ⟨hres, by rw [hres]; rfl⟩
  · intro mr hs
    have hp : runMirrors u env.mirrors none = (none, some mr) := Prod.ext h6 hs
    unfold fetch_leetcode_live
    rw [h1, h2, h3, h4, h5]
    simp only [hp]
    by_cases hz : pyEqInt mr.report.totalSolved 0 = true
    · rw [if_pos hz, if_pos hz]
      cases hf : finalRetry env.finalGql mr u with
      | none => rfl
      | some e => rfl
    · rw [if_neg hz, if_neg hz]

theorem fetch_fallback_spec_witness :
    fetch_leetcode_live c1Env "u" =
      (if pyEqInt c1Mr.report.totalSolved 0 then
        (finalRetry c1Env.finalGql c1Mr "u").getD c1Mr
       else c1Mr) :=
  (fetch_fallback_spec c1Env "u" rfl rfl rfl rfl rfl rfl).2 c1Mr rfl

end Scrappers
